import Mathlib

/-!
Verification development for the Excel-Unprotect OOXML engine
(`src/services/excelService.ts`).

Shallow embedding conventions:
* A zip package (JSZip's path → entry map) is a `Package`, an association
  list from part path to decoded XML content.  JSZip keys are unique, so
  theorems about arbitrary packages carry a `Nodup` hypothesis on the keys.
* XML part content is modelled at the DOM-tree level (`XNode`): the external
  `DOMParser.parseFromString` / `XMLSerializer.serializeToString` pair is an
  external collaborator, so a part that the code parses, mutates and
  reserializes is modelled by the corresponding tree transformation, and a
  part the code never touches keeps its tree (and hence its bytes).
* JS strings are Lean `String`s; `slice`/`startsWith`/`endsWith` are
  modelled by explicit `List Char` operations.
* Errors are the thrown `Error.message` strings; `async` control flow is
  sequenced purely; the `onProgress` callback is modelled as an accumulated
  list of the emitted step strings.
* `DataView.getUint32(_, false)` over the file header is modelled over the
  file's byte list (`List Nat`), reducing each byte mod 256.
-/

/-- A DOM node: an element with its qualified tag name as written
(e.g. `"x:sheetProtection"`), the namespace it was created in (if any),
its attributes and children, or a text node. -/
inductive XNode where
  | elem (tag : String) (ns : Option String) (attrs : List (String × String)) (children : List XNode)
  | text (s : String)

/-- A parsed XML document: its list of top-level nodes (normally one root element). -/
abbrev XDoc := List XNode

/-- DOM `localName`: the part of the qualified tag name after the (last)
colon — the whole name when it has no colon. -/
def localOf (tag : String) : String :=
  ⟨tag.data.foldl (fun acc c => if c = ':' then [] else acc ++ [c]) []⟩

/-- Does this node's qualified tag name equal `t`?  (`getElementsByTagName`
matches XML elements by qualified name.) -/
def isTagT (t : String) : XNode → Bool
  | .elem tag _ _ _ => tag = t
  | .text _ => false

mutual
/-- Number of elements with qualified tag `t` in the subtree rooted at a node
(what `doc.getElementsByTagName(t).length` counts, restricted to this subtree). -/
def countTagN (t : String) : XNode → Nat
  | .text _ => 0
  | .elem tag _ _ ch => (if tag = t then 1 else 0) + countTagF t ch
/-- Number of elements with qualified tag `t` in a forest. -/
def countTagF (t : String) : List XNode → Nat
  | [] => 0
  | c :: cs => countTagN t c + countTagF t cs
end

mutual
/-- End state of the source's removal loop
(`while (tags.length > 0) tags[0].parentNode.removeChild(tags[0])`):
every element whose qualified tag equals `t` is detached together with its
subtree, at every depth. -/
def removeTagN (t : String) : XNode → XNode
  | .text s => .text s
  | .elem tag ns attrs ch => .elem tag ns attrs (removeTagF t ch)
/-- Forest version of `removeTagN`; a matching node is dropped with its
whole subtree, a non-matching node is cleaned recursively. -/
def removeTagF (t : String) : List XNode → List XNode
  | [] => []
  | c :: cs => if isTagT t c then removeTagF t cs else removeTagN t c :: removeTagF t cs
end

mutual
/-- Number of elements whose `localName` equals `l` in a subtree. -/
def countLocalN (l : String) : XNode → Nat
  | .text _ => 0
  | .elem tag _ _ ch => (if localOf tag = l then 1 else 0) + countLocalF l ch
/-- Number of elements whose `localName` equals `l` in a forest. -/
def countLocalF (l : String) : List XNode → Nat
  | [] => 0
  | c :: cs => countLocalN l c + countLocalF l cs
end

mutual
/-- DOM `textContent` of a node: concatenation of all descendant text. -/
def textN : XNode → String
  | .text s => s
  | .elem _ _ _ ch => textF ch
/-- Concatenated text of a forest. -/
def textF : List XNode → String
  | [] => ""
  | c :: cs => textN c ++ textF cs
end

mutual
/-- Document-order (pre-order) list of the `localName`s of all elements in a subtree. -/
def localNamesN : XNode → List String
  | .text _ => []
  | .elem tag _ _ ch => localOf tag :: localNamesF ch
/-- Document-order list of the `localName`s of all elements in a forest. -/
def localNamesF : List XNode → List String
  | [] => []
  | c :: cs => localNamesN c ++ localNamesF cs
end

mutual
/-- First element in document order whose `localName` is `l`
(the source's scan over `getElementsByTagName("*")` comparing `localName`). -/
def findLocalN (l : String) : XNode → Option XNode
  | .text _ => none
  | .elem tag ns attrs ch =>
      if localOf tag = l then some (.elem tag ns attrs ch) else findLocalF l ch
/-- First element in document order of a forest whose `localName` is `l`. -/
def findLocalF (l : String) : List XNode → Option XNode
  | [] => none
  | c :: cs =>
      match findLocalN l c with
      | some e => some e
      | none => findLocalF l cs
end

mutual
/-- Rewrite the first element in document order whose `localName` is `l`
with `f` (models an in-place DOM mutation of the found target element);
`none` when no such element exists. -/
def mapFirstLocalN (l : String) (f : XNode → XNode) : XNode → Option XNode
  | .text _ => none
  | .elem tag ns attrs ch =>
      if localOf tag = l then some (f (.elem tag ns attrs ch))
      else
        match mapFirstLocalF l f ch with
        | some ch2 => some (.elem tag ns attrs ch2)
        | none => none
/-- Forest version of `mapFirstLocalN`. -/
def mapFirstLocalF (l : String) (f : XNode → XNode) : List XNode → Option (List XNode)
  | [] => none
  | c :: cs =>
      match mapFirstLocalN l f c with
      | some c2 => some (c2 :: cs)
      | none =>
        match mapFirstLocalF l f cs with
        | some cs2 => some (c :: cs2)
        | none => none
end

/-- DOM `textContent` setter: replaces all children with a single text node
(none at all when the assigned string is empty). -/
def setTextContent (s : String) : XNode → XNode
  | .text _ => .text s
  | .elem tag ns attrs _ => .elem tag ns attrs (if s = "" then [] else [.text s])

/-- Replace the value of attribute `k` (or append it), as `setAttributeNS` does. -/
def setAttrL (k v : String) : List (String × String) → List (String × String)
  | [] => [(k, v)]
  | a :: rest => if a.1 = k then (k, v) :: rest else a :: setAttrL k v rest

/-- Model of `el.setAttributeNS(_, k, v)` on an element node. -/
def setAttrX (k v : String) : XNode → XNode
  | .text s => .text s
  | .elem tag ns attrs ch => .elem tag ns (setAttrL k v attrs) ch

/-- Model of `doc.documentElement.appendChild(n)`: append `n` to the children of the
first (root) element of the document.  (Unreachable for a document with no
element; such a document is returned unchanged.) -/
def appendToRoot (n : XNode) : XDoc → XDoc
  | [] => []
  | .text s :: rest => .text s :: appendToRoot n rest
  | .elem tag ns attrs ch :: rest => .elem tag ns attrs (ch ++ [n]) :: rest

/-! ### Mutual induction principle for the nested node/forest recursion -/

mutual
theorem xmutN (P : XNode → Prop) (Q : List XNode → Prop)
    (htext : ∀ s, P (.text s))
    (helem : ∀ tag ns attrs ch, Q ch → P (.elem tag ns attrs ch))
    (hnil : Q [])
    (hcons : ∀ c cs, P c → Q cs → Q (c :: cs)) : ∀ n, P n
  | .text s => htext s
  | .elem tag ns attrs ch => helem tag ns attrs ch (xmutF P Q htext helem hnil hcons ch)
theorem xmutF (P : XNode → Prop) (Q : List XNode → Prop)
    (htext : ∀ s, P (.text s))
    (helem : ∀ tag ns attrs ch, Q ch → P (.elem tag ns attrs ch))
    (hnil : Q [])
    (hcons : ∀ c cs, P c → Q cs → Q (c :: cs)) : ∀ l, Q l
  | [] => hnil
  | c :: cs => hcons c cs (xmutN P Q htext helem hnil hcons c) (xmutF P Q htext helem hnil hcons cs)
end

/-! ### String primitives (JS `startsWith` / `endsWith` / `slice`) -/

/-- JS `s.toLowerCase()` (ASCII casing, all that matters for extensions). -/
def strLower (s : String) : String := ⟨s.data.map Char.toLower⟩

/-- JS `s.startsWith(p)`. -/
def strStarts (s p : String) : Bool := p.data.isPrefixOf s.data

/-- JS `s.endsWith(p)`. -/
def strEnds (s p : String) : Bool := p.data.isSuffixOf s.data

/-- JS `s.slice(n)` (drop the first `n` characters). -/
def strDrop (s : String) (n : Nat) : String := ⟨s.data.drop n⟩

/-- Substring occurrence over char lists (JS `String.prototype.includes`). -/
def hasSubL (pat : List Char) : List Char → Bool
  | [] => pat.isPrefixOf []
  | c :: cs => pat.isPrefixOf (c :: cs) || hasSubL pat cs

/-- JS `s.includes(pat)`. -/
def containsSub (s pat : String) : Bool := hasSubL pat.data s.data

/-! ### The package model (JSZip path → content map) -/

/-- A loaded zip package: part path → decoded XML content, keys unique in
any package JSZip can produce. -/
abbrev Package := List (String × XDoc)

/-- Model of `loadedZip.file(p)`: content at path `p`. -/
def zfind (z : Package) (p : String) : Option XDoc :=
  (z.find? (fun e => e.1 = p)).map (fun e => e.2)

/-- Model of `loadedZip.file(p, content)`: overwrite the entry at `p` (keeping its
position — JSZip's `files` is a JS object with unique keys), or add it at
the end when absent. -/
def zset (z : Package) (p : String) (d : XDoc) : Package :=
  match z with
  | [] => [(p, d)]
  | e :: rest => if e.1 = p then (p, d) :: rest else e :: zset rest p d

/-- The part paths of a package, in entry order. -/
def zkeys (z : Package) : List String := z.map (fun e => e.1)

def wbPath : String := "xl/workbook.xml"
def wsDir : String := "xl/worksheets/"
def corePath : String := "docProps/core.xml"
def appPath : String := "docProps/app.xml"

/-- Model of `loadedZip.folder("xl/worksheets").forEach` with the `.endsWith(".xml")`
filter of the source: relative paths (under `xl/worksheets/`) of the
worksheet parts, in entry order. -/
def wsRels (z : Package) : List String :=
  (zkeys z).filterMap (fun pth =>
    if strStarts pth wsDir && strEnds (strDrop pth 14) ".xml" then some (strDrop pth 14)
    else none)

/-! ### Messages and progress steps (verbatim from the source) -/

def msgReading : String := "Reading file structure..."
def msgAnalyzing : String := "Analyzing workbook..."
def msgRemovingWb : String := "Removing workbook protection..."
def msgScanning : String := "Scanning worksheets..."
def msgFound : String := "Found protection in sheets..."
def msgRepackaging : String := "Repackaging Excel file..."
def msgCompleted : String := "Completed"

def errExt : String :=
  "Only .xlsx files are supported. Please convert .xls files to .xlsx in Excel first."
def errEnc : String :=
  "This file is encrypted with a \x27Password to Open\x27. This tool cannot bypass opening passwords, only sheet/workbook protection."
def errCorrupt : String :=
  "Could not read .xlsx file structure. The file might be corrupted or encrypted."
def errGeneric : String :=
  "Failed to process the Excel file. It might be corrupted or in an unsupported format."

/-! ### The unprotect pipeline (`unprotectFile` / `processModernFile`) -/

/-- Model of `DataView.getUint32(off, false)` over the file bytes (big-endian). -/
def readU32BE (bytes : List Nat) (off : Nat) : Nat :=
  (bytes.getD off 0 % 256) * 16777216 + (bytes.getD (off + 1) 0 % 256) * 65536 +
    (bytes.getD (off + 2) 0 % 256) * 256 + bytes.getD (off + 3) 0 % 256

/-- Step 1 of `processModernFile`: remove workbook protection from the
workbook part.  Returns the updated package, the `wasProtected` flag so far
and the progress steps emitted by this phase. -/
def stripWorkbookStep (z : Package) : Package × Bool × List String :=
  match zfind z wbPath with
  | none => (z, false, [])
  | some d =>
      if 0 < countTagF "workbookProtection" d then
        (zset z wbPath (removeTagF "workbookProtection" d), true, [msgRemovingWb])
      else (z, false, [])

/-- Step 2 of `processModernFile`: the `for (const wsPath of worksheetFiles)`
loop.  `rels` are the relative worksheet paths still to process, `z` the
current package, `w` the current `wasProtected` flag, `pr` the progress
emitted so far.  (The `none` lookup branch is unreachable: the relative
paths are enumerated from the package itself.) -/
def stripSheetsGo : List String → Package → Bool → List String → Package × Bool × List String
  | [], z, w, pr => (z, w, pr)
  | rel :: rest, z, w, pr =>
      match zfind z (wsDir ++ rel) with
      | none => stripSheetsGo rest z w pr
      | some d =>
          if 0 < countTagF "sheetProtection" d then
            stripSheetsGo rest (zset z (wsDir ++ rel) (removeTagF "sheetProtection" d)) true
              (if w then pr else pr ++ [msgFound])
          else stripSheetsGo rest z w pr

/-- The protection-stripping core of `processModernFile` on a loaded package:
workbook phase, then the worksheet loop.  Returns the final package, the
`wasProtected` flag and the progress steps emitted between
"Analyzing workbook..." (exclusive) and "Repackaging..." (exclusive). -/
def stripCore (z : Package) : Package × Bool × List String :=
  let r := stripWorkbookStep z
  stripSheetsGo (wsRels r.1) r.1 r.2.1 (r.2.2 ++ [msgScanning])

/-- Model of `processModernFile`: `loadRes` is the outcome of `zip.loadAsync`
(`none` = the bytes are not a valid zip container).  Result: thrown message
or `(package, wasProtected)`, paired with the emitted progress steps. -/
def processModernFile (loadRes : Option Package) :
    Except String (Package × Bool) × List String :=
  match loadRes with
  | none => (.error errCorrupt, [msgReading])
  | some z =>
      let r := stripCore z
      (.ok (r.1, r.2.1), msgReading :: msgAnalyzing :: r.2.2 ++ [msgRepackaging, msgCompleted])

/-- The catch-wrapper of `unprotectFile`: password-related messages
propagate unchanged; any other message is rethrown as
`new Error(error.message || generic)`. -/
def wrapErr (e : String) : String :=
  if containsSub e "Password to Open" || containsSub e "Password" then e
  else if e = "" then errGeneric else e

/-- Model of `ExcelService.unprotectFile`: extension gate, OLE-signature pre-check
(the inner catch rethrows the thrown error because its message holds
"Password to Open"), then `processModernFile` under the outer catch. -/
def unprotectFile (name : String) (bytes : List Nat) (loadRes : Option Package) :
    Except String (Package × Bool) × List String :=
  if !(strEnds (strLower name) ".xlsx") then (.error errExt, [])
  else if 8 ≤ bytes.length ∧ readU32BE bytes 0 = 0xD0CF11E0 ∧ readU32BE bytes 4 = 0xA1B11AE1 then
    if containsSub errEnc "Password to Open" then (.error errEnc, [])
    else
      match processModernFile loadRes with
      | (.ok v, pr) => (.ok v, pr)
      | (.error e, pr) => (.error (wrapErr e), pr)
  else
    match processModernFile loadRes with
    | (.ok v, pr) => (.ok v, pr)
    | (.error e, pr) => (.error (wrapErr e), pr)

/-! ### Marker characterisations (spec-side, for stating the claims) -/

/-- Does the workbook part hold a `workbookProtection` element (by qualified tag)? -/
def wbHas (z : Package) : Bool :=
  match zfind z wbPath with
  | none => false
  | some d => decide (0 < countTagF "workbookProtection" d)

/-- Does the worksheet part at relative path `rel` hold a `sheetProtection` element? -/
def shHasAt (z : Package) (rel : String) : Bool :=
  match zfind z (wsDir ++ rel) with
  | none => false
  | some d => decide (0 < countTagF "sheetProtection" d)

/-- Does some worksheet part of the package hold a `sheetProtection` element? -/
def shHas (z : Package) : Bool := (wsRels z).any (shHasAt z)

/-- At least one protection marker of either kind exists in the package. -/
def hasAnyMarker (z : Package) : Bool := wbHas z || shHas z

/-! ### Document properties: data model (`ExcelProperties` of `types.ts`) -/

/-- A UTC instant as printed by `Date.prototype.toISOString`
(`YYYY-MM-DDTHH:mm:ss.sssZ`), field by field.  Two JS `Date`s are equal as
values iff these fields agree. -/
structure DateTS where
  year : Nat
  month : Nat
  day : Nat
  hour : Nat
  minute : Nat
  sec : Nat
  ms : Nat

/-- The `ExcelProperties` record: every metadata key is optional. -/
structure PropertySet where
  title : Option String := none
  subject : Option String := none
  creator : Option String := none
  keywords : Option String := none
  description : Option String := none
  lastModifiedBy : Option String := none
  created : Option DateTS := none
  modified : Option DateTS := none
  category : Option String := none
  contentStatus : Option String := none
  company : Option String := none
  manager : Option String := none
  revision : Option String := none
  version : Option String := none
  programName : Option String := none
  lastPrinted : Option DateTS := none
  scale : Option Bool := none
  linksDirty : Option Bool := none
  language : Option String := none

/-- The empty `PropertySet` (`{}` in the source). -/
def emptyProps : PropertySet := {}

def dcNS : String := "http://purl.org/dc/elements/1.1/"
def cpNS : String := "http://schemas.openxmlformats.org/package/2006/metadata/core-properties"
def dctermsNS : String := "http://purl.org/dc/terms/"
def xsiNS : String := "http://www.w3.org/2001/XMLSchema-instance"
def extNS : String := "http://schemas.openxmlformats.org/officeDocument/2006/extended-properties"
def vtNS : String := "http://schemas.openxmlformats.org/officeDocument/2006/docPropsVTypes"

/-! ### ISO-8601 timestamp text (`Date.prototype.toISOString` / `new Date(s)`) -/

/-- Decimal digit character for `k < 10`. -/
def dig10 : Nat → Char
  | 0 => '0' | 1 => '1' | 2 => '2' | 3 => '3' | 4 => '4'
  | 5 => '5' | 6 => '6' | 7 => '7' | 8 => '8' | _ => '9'

/-- Last decimal digit of `n`, as a character. -/
def dig (n : Nat) : Char := dig10 (n % 10)

/-- Model of `Date.prototype.toISOString` for a valid in-range date:
`YYYY-MM-DDTHH:mm:ss.sssZ`, zero-padded.  (Years beyond 9999 use a six-digit
form in JS; `validTS` excludes them.) -/
def toISO (d : DateTS) : String :=
  ⟨[dig (d.year / 1000), dig (d.year / 100), dig (d.year / 10), dig d.year, '-',
    dig (d.month / 10), dig d.month, '-', dig (d.day / 10), dig d.day, 'T',
    dig (d.hour / 10), dig d.hour, ':', dig (d.minute / 10), dig d.minute, ':',
    dig (d.sec / 10), dig d.sec, '.', dig (d.ms / 100), dig (d.ms / 10), dig d.ms, 'Z']⟩

/-- Is `c` a decimal digit? -/
def isDig (c : Char) : Bool := decide (48 ≤ c.toNat ∧ c.toNat ≤ 57)

/-- Numeric value of a digit character. -/
def valC (c : Char) : Nat := c.toNat - 48

/-- Gregorian leap year. -/
def isLeap (y : Nat) : Bool := (y % 4 = 0 && !(y % 100 = 0)) || y % 400 = 0

/-- Days in a month (for `Date.parse` range validation). -/
def daysInMonth (y m : Nat) : Nat :=
  if m = 1 ∨ m = 3 ∨ m = 5 ∨ m = 7 ∨ m = 8 ∨ m = 10 ∨ m = 12 then 31
  else if m = 4 ∨ m = 6 ∨ m = 9 ∨ m = 11 then 30
  else if isLeap y then 29 else 28

/-- Model of `new Date(s)` on an ISO `YYYY-MM-DDTHH:mm:ss.sssZ` string: the parsed
instant, or `none` when the text is not of that shape or a field is out of
range (JS would produce an Invalid Date; no claim distinguishes the two). -/
def parseIso (s : String) : Option DateTS :=
  match s.data with
  | [y1, y2, y3, y4, '-', mo1, mo2, '-', d1, d2, 'T', h1, h2, ':', mi1, mi2, ':',
     s1, s2, '.', x1, x2, x3, 'Z'] =>
      if isDig y1 && isDig y2 && isDig y3 && isDig y4 && isDig mo1 && isDig mo2 &&
         isDig d1 && isDig d2 && isDig h1 && isDig h2 && isDig mi1 && isDig mi2 &&
         isDig s1 && isDig s2 && isDig x1 && isDig x2 && isDig x3 then
        let y := valC y1 * 1000 + valC y2 * 100 + valC y3 * 10 + valC y4
        let mo := valC mo1 * 10 + valC mo2
        let dd := valC d1 * 10 + valC d2
        let h := valC h1 * 10 + valC h2
        let mi := valC mi1 * 10 + valC mi2
        let ss := valC s1 * 10 + valC s2
        let ms := valC x1 * 100 + valC x2 * 10 + valC x3
        if 1 ≤ mo ∧ mo ≤ 12 ∧ 1 ≤ dd ∧ dd ≤ daysInMonth y mo ∧ h ≤ 23 ∧ mi ≤ 59 ∧ ss ≤ 59 then
          some ⟨y, mo, dd, h, mi, ss, ms⟩
        else none
      else none
  | _ => none

/-- The dates `Date.prototype.toISOString` prints in the 4-digit-year form:
all fields in calendar range. -/
def validTS (d : DateTS) : Bool :=
  decide (d.year ≤ 9999 ∧ 1 ≤ d.month ∧ d.month ≤ 12 ∧ 1 ≤ d.day ∧
    d.day ≤ daysInMonth d.year d.month ∧ d.hour ≤ 23 ∧ d.minute ≤ 59 ∧ d.sec ≤ 59 ∧ d.ms ≤ 999)

/-! ### Property Reader (`ExcelService.getProperties`) -/

/-- The source's `getByLocalName`: first element in document order whose
`localName` is `l`, its `textContent`, with `"" → undefined`
(`textContent || undefined`). -/
def gbln (doc : XDoc) (l : String) : Option String :=
  match findLocalF l doc with
  | none => none
  | some e => if textN e = "" then none else some (textN e)

/-- Timestamp read: `if (s) props.k = new Date(s)`. -/
def optDate (o : Option String) : Option DateTS :=
  match o with
  | none => none
  | some s => parseIso s

/-- Model of `ExcelService.getProperties`.  `loadRes` is the `zip.loadAsync` outcome;
the surrounding `catch` turns a load failure into `{}`. -/
def getProperties (loadRes : Option Package) : PropertySet :=
  match loadRes with
  | none => emptyProps
  | some z =>
      let p1 : PropertySet :=
        match zfind z corePath with
        | none => emptyProps
        | some doc =>
            { title := gbln doc "title"
              subject := gbln doc "subject"
              creator := gbln doc "creator"
              keywords := gbln doc "keywords"
              description := gbln doc "description"
              lastModifiedBy := gbln doc "lastModifiedBy"
              category := gbln doc "category"
              contentStatus := gbln doc "contentStatus"
              revision := gbln doc "revision"
              language := gbln doc "language"
              created := optDate (gbln doc "created")
              modified := optDate (gbln doc "modified")
              lastPrinted := optDate (gbln doc "lastPrinted") }
      match zfind z appPath with
      | none => p1
      | some doc =>
          { p1 with
              company := gbln doc "Company"
              manager := gbln doc "Manager"
              programName := gbln doc "Application"
              version := gbln doc "AppVersion"
              scale := some (decide (gbln doc "ScaleCrop" = some "true"))
              linksDirty := some (decide (gbln doc "LinksUpToDate" = some "false")) }

/-! ### Property Writer (`ExcelService.updateProperties`) -/

/-- The `isBoolean` conversion of `updateTag`: `value ? "true" : "false"`. -/
def boolStr (b : Bool) : String := if b then "true" else "false"

/-- Children produced by assigning `textContent := s`. -/
def txtCh (s : String) : List XNode := if s = "" then [] else [.text s]

/-- The source's `updateTag` for a text value: skip when undefined; set the
text of the first element matching by local name; otherwise create the
element in its namespace and append it to the document root. -/
def updateTagS (doc : XDoc) (l : String) (v : Option String) (nsp : String) : XDoc :=
  match v with
  | none => doc
  | some s =>
      match mapFirstLocalF l (setTextContent s) doc with
      | some doc2 => doc2
      | none => appendToRoot (.elem l (some nsp) [] (txtCh s)) doc

/-- Model of `updateTag` with `isBoolean = true`. -/
def updateTagB (doc : XDoc) (l : String) (v : Option Bool) (nsp : String) : XDoc :=
  updateTagS doc l (v.map boolStr) nsp

/-- Qualified name used when `updateDate` creates a missing date element. -/
def dateQTag (l : String) : String :=
  if l = "lastPrinted" then "cp:lastPrinted" else "dcterms:" ++ l

/-- Namespace used when `updateDate` creates a missing date element. -/
def dateNSOf (l : String) : String :=
  if l = "created" ∨ l = "modified" then dctermsNS else cpNS

/-- The two mutations `updateDate` applies to its target element:
`textContent := iso`, and for `created`/`modified` also
`xsi:type="dcterms:W3CDTF"`. -/
def setDateFields (l iso : String) (e : XNode) : XNode :=
  if l = "lastPrinted" then setTextContent iso e
  else setAttrX "xsi:type" "dcterms:W3CDTF" (setTextContent iso e)

/-- The source's `updateDate`: skip when undefined; otherwise mutate the
first element matching by local name, creating and appending it first when
missing. -/
def updateDate (doc : XDoc) (l : String) (v : Option DateTS) : XDoc :=
  match v with
  | none => doc
  | some dt =>
      match mapFirstLocalF l (setDateFields l (toISO dt)) doc with
      | some doc2 => doc2
      | none => appendToRoot (setDateFields l (toISO dt) (.elem (dateQTag l) (some (dateNSOf l)) [] [])) doc

/-- Sequence of `updateTag` calls, head first. -/
def applyWrites (doc : XDoc) (ws : List (String × String × Option String)) : XDoc :=
  ws.foldl (fun d w => updateTagS d w.1 w.2.2 w.2.1) doc

/-- The ten core-properties `updateTag` calls, in source order. -/
def coreTextWrites (ps : PropertySet) : List (String × String × Option String) :=
  [("title", dcNS, ps.title), ("subject", dcNS, ps.subject), ("creator", dcNS, ps.creator),
   ("keywords", cpNS, ps.keywords), ("description", dcNS, ps.description),
   ("lastModifiedBy", cpNS, ps.lastModifiedBy), ("category", cpNS, ps.category),
   ("contentStatus", cpNS, ps.contentStatus), ("revision", cpNS, ps.revision),
   ("language", dcNS, ps.language)]

/-- The six app-properties `updateTag` calls, in source order (the two
boolean keys go through the `isBoolean` conversion). -/
def appWrites (ps : PropertySet) : List (String × String × Option String) :=
  [("Company", extNS, ps.company), ("Manager", extNS, ps.manager),
   ("Application", extNS, ps.programName), ("AppVersion", extNS, ps.version),
   ("ScaleCrop", extNS, ps.scale.map boolStr), ("LinksUpToDate", extNS, ps.linksDirty.map boolStr)]

/-- The core-properties template document synthesized when
`docProps/core.xml` is absent. -/
def coreTemplate : XDoc :=
  [.elem "cp:coreProperties" (some cpNS)
    [("xmlns:cp", cpNS), ("xmlns:dc", dcNS), ("xmlns:dcterms", dctermsNS),
     ("xmlns:dcmitype", "http://purl.org/dc/dcmitype/"), ("xmlns:xsi", xsiNS)] []]

/-- The extended-properties template document synthesized when
`docProps/app.xml` is absent. -/
def appTemplate : XDoc :=
  [.elem "Properties" (some extNS) [("xmlns", extNS), ("xmlns:vt", vtNS)] []]

/-- Model of `ExcelService.updateProperties`: rewrite (or synthesize) the two
property parts in place and return the rebuilt package. -/
def updateProperties (z : Package) (ps : PropertySet) : Package :=
  let coreDoc := match zfind z corePath with
    | some d => d
    | none => coreTemplate
  let cd1 := applyWrites coreDoc (coreTextWrites ps)
  let cd2 := updateDate cd1 "created" ps.created
  let cd3 := updateDate cd2 "modified" ps.modified
  let cd4 := updateDate cd3 "lastPrinted" ps.lastPrinted
  let z1 := zset z corePath cd4
  let appDoc := match zfind z1 appPath with
    | some d => d
    | none => appTemplate
  let ad := applyWrites appDoc (appWrites ps)
  zset z1 appPath ad

/-! ### Characterisation helpers (spec-side shapes of what the writer builds) -/

/-- The element a single `updateTag` call appends for a fresh local name:
nothing when the value is undefined, else the new element with its text. -/
def optElem : String × String × Option String → List XNode
  | (_, _, none) => []
  | (l, nsp, some s) => [.elem l (some nsp) [] (txtCh s)]

/-- The children a sequence of fresh `updateTag` calls appends. -/
def flatOf : List (String × String × Option String) → List XNode
  | [] => []
  | w :: rest => optElem w ++ flatOf rest

/-- The element a single `updateDate` call appends for a fresh local name. -/
def dateElem (l : String) (v : Option DateTS) : List XNode :=
  match v with
  | none => []
  | some dt => [setDateFields l (toISO dt) (.elem (dateQTag l) (some (dateNSOf l)) [] [])]

/-- The core-properties part `updateProperties` builds when the part was
absent: the template root with one appended element per defined key. -/
def coreFinal (ps : PropertySet) : XDoc :=
  [.elem "cp:coreProperties" (some cpNS)
    [("xmlns:cp", cpNS), ("xmlns:dc", dcNS), ("xmlns:dcterms", dctermsNS),
     ("xmlns:dcmitype", "http://purl.org/dc/dcmitype/"), ("xmlns:xsi", xsiNS)]
    (flatOf (coreTextWrites ps) ++ dateElem "created" ps.created ++
      dateElem "modified" ps.modified ++ dateElem "lastPrinted" ps.lastPrinted)]

/-- The extended-properties part `updateProperties` builds when the part was
absent: the template root with one appended element per defined key. -/
def appFinal (ps : PropertySet) : XDoc :=
  [.elem "Properties" (some extNS) [("xmlns", extNS), ("xmlns:vt", vtNS)]
    (flatOf (appWrites ps))]

/-! ### Basic XML lemmas -/

theorem countTag_removeTag (t : String) :
    (∀ n, countTagN t (removeTagN t n) = if isTagT t n then 1 else 0) ∧
    (∀ l, countTagF t (removeTagF t l) = 0) := by
  constructor
  · refine xmutN _ (fun l => countTagF t (removeTagF t l) = 0) ?_ ?_ ?_ ?_
    · intro s; simp [removeTagN, countTagN, isTagT]
    · intro tag ns attrs ch hch; simp [removeTagN, countTagN, isTagT, hch]
    · simp [removeTagF, countTagF]
    · intro c cs hc hcs
      by_cases h : isTagT t c
      · simp [removeTagF, h, hcs]
      · simp [removeTagF, h, countTagF, hc, hcs]
  · refine xmutF (fun n => countTagN t (removeTagN t n) = if isTagT t n then 1 else 0) _ ?_ ?_ ?_ ?_
    · intro s; simp [removeTagN, countTagN, isTagT]
    · intro tag ns attrs ch hch; simp [removeTagN, countTagN, isTagT, hch]
    · simp [removeTagF, countTagF]
    · intro c cs hc hcs
      by_cases h : isTagT t c
      · simp [removeTagF, h, hcs]
      · simp [removeTagF, h, countTagF, hc, hcs]

theorem countTagF_removeTagF (t : String) (l : List XNode) :
    countTagF t (removeTagF t l) = 0 := (countTag_removeTag t).2 l

theorem removeTag_noop (t : String) :
    (∀ n, countTagN t n = 0 → removeTagN t n = n) ∧
    (∀ l, countTagF t l = 0 → removeTagF t l = l) := by
  constructor
  · refine xmutN _ (fun l => countTagF t l = 0 → removeTagF t l = l) ?_ ?_ ?_ ?_
    · intro s _; simp [removeTagN]
    · intro tag ns attrs ch hch hcount
      simp [countTagN] at hcount
      simp [removeTagN, hch hcount.2]
    · intro _; simp [removeTagF]
    · intro c cs hc hcs hcount
      simp [countTagF] at hcount
      have hnt : isTagT t c = false := by
        cases c with
        | text s => simp [isTagT]
        | elem tag ns attrs ch =>
          simp [countTagN] at hcount
          simp [isTagT]
          intro he
          rw [he] at hcount
          simp at hcount
      simp [removeTagF, hnt, hc hcount.1, hcs hcount.2]
  · refine xmutF (fun n => countTagN t n = 0 → removeTagN t n = n) _ ?_ ?_ ?_ ?_
    · intro s _; simp [removeTagN]
    · intro tag ns attrs ch hch hcount
      simp [countTagN] at hcount
      simp [removeTagN, hch hcount.2]
    · intro _; simp [removeTagF]
    · intro c cs hc hcs hcount
      simp [countTagF] at hcount
      have hnt : isTagT t c = false := by
        cases c with
        | text s => simp [isTagT]
        | elem tag ns attrs ch =>
          simp [countTagN] at hcount
          simp [isTagT]
          intro he
          rw [he] at hcount
          simp at hcount
      simp [removeTagF, hnt, hc hcount.1, hcs hcount.2]

theorem removeTagF_noop (t : String) (l : List XNode) (h : countTagF t l = 0) :
    removeTagF t l = l := (removeTag_noop t).2 l h

theorem findLocal_none_iff (l : String) :
    (∀ n, findLocalN l n = none ↔ l ∉ localNamesN n) ∧
    (∀ L, findLocalF l L = none ↔ l ∉ localNamesF L) := by
  constructor
  · refine xmutN _ (fun L => findLocalF l L = none ↔ l ∉ localNamesF L) ?_ ?_ ?_ ?_
    · intro s; simp [findLocalN, localNamesN]
    · intro tag ns attrs ch hch
      by_cases h : localOf tag = l
      · simp [findLocalN, localNamesN, h]
      · simp [findLocalN, localNamesN, h, hch, Ne.symm h]
    · simp [findLocalF, localNamesF]
    · intro c cs hc hcs
      cases hfc : findLocalN l c with
      | some e =>
        rw [hfc] at hc
        simp at hc
        simp [findLocalF, localNamesF, hfc]
        intro hn
        exact absurd hc hn
      | none =>
        rw [hfc] at hc
        simp at hc
        simp [findLocalF, localNamesF, hfc, hc, hcs]
  · refine xmutF (fun n => findLocalN l n = none ↔ l ∉ localNamesN n) _ ?_ ?_ ?_ ?_
    · intro s; simp [findLocalN, localNamesN]
    · intro tag ns attrs ch hch
      by_cases h : localOf tag = l
      · simp [findLocalN, localNamesN, h]
      · simp [findLocalN, localNamesN, h, hch, Ne.symm h]
    · simp [findLocalF, localNamesF]
    · intro c cs hc hcs
      cases hfc : findLocalN l c with
      | some e =>
        rw [hfc] at hc
        simp at hc
        simp [findLocalF, localNamesF, hfc]
        intro hn
        exact absurd hc hn
      | none =>
        rw [hfc] at hc
        simp at hc
        simp [findLocalF, localNamesF, hfc, hc, hcs]

theorem findLocalF_none_iff (l : String) (L : List XNode) :
    findLocalF l L = none ↔ l ∉ localNamesF L := (findLocal_none_iff l).2 L

theorem mapFirstLocal_none_iff (l : String) (f : XNode → XNode) :
    (∀ n, mapFirstLocalN l f n = none ↔ l ∉ localNamesN n) ∧
    (∀ L, mapFirstLocalF l f L = none ↔ l ∉ localNamesF L) := by
  constructor
  · refine xmutN _ (fun L => mapFirstLocalF l f L = none ↔ l ∉ localNamesF L) ?_ ?_ ?_ ?_
    · intro s; simp [mapFirstLocalN, localNamesN]
    · intro tag ns attrs ch hch
      by_cases h : localOf tag = l
      · simp [mapFirstLocalN, localNamesN, h]
      · simp only [mapFirstLocalN, localNamesN, h, if_false]
        cases hm : mapFirstLocalF l f ch with
        | some ch2 =>
          rw [hm] at hch
          simp at hch
          simp [hch, Ne.symm h]
        | none =>
          rw [hm] at hch
          simp at hch
          simp [hch, Ne.symm h]
    · simp [mapFirstLocalF, localNamesF]
    · intro c cs hc hcs
      cases hfc : mapFirstLocalN l f c with
      | some c2 =>
        rw [hfc] at hc
        simp at hc
        simp [mapFirstLocalF, localNamesF, hfc]
        intro hn
        exact absurd hc hn
      | none =>
        rw [hfc] at hc
        simp at hc
        cases hfs : mapFirstLocalF l f cs with
        | some cs2 =>
          rw [hfs] at hcs
          simp at hcs
          simp [mapFirstLocalF, localNamesF, hfc, hfs]
          intro _
          exact hcs
        | none =>
          rw [hfs] at hcs
          simp at hcs
          simp [mapFirstLocalF, localNamesF, hfc, hfs, hc, hcs]
  · refine xmutF (fun n => mapFirstLocalN l f n = none ↔ l ∉ localNamesN n) _ ?_ ?_ ?_ ?_
    · intro s; simp [mapFirstLocalN, localNamesN]
    · intro tag ns attrs ch hch
      by_cases h : localOf tag = l
      · simp [mapFirstLocalN, localNamesN, h]
      · simp only [mapFirstLocalN, localNamesN, h, if_false]
        cases hm : mapFirstLocalF l f ch with
        | some ch2 =>
          rw [hm] at hch
          simp at hch
          simp [hch, Ne.symm h]
        | none =>
          rw [hm] at hch
          simp at hch
          simp [hch, Ne.symm h]
    · simp [mapFirstLocalF, localNamesF]
    · intro c cs hc hcs
      cases hfc : mapFirstLocalN l f c with
      | some c2 =>
        rw [hfc] at hc
        simp at hc
        simp [mapFirstLocalF, localNamesF, hfc]
        intro hn
        exact absurd hc hn
      | none =>
        rw [hfc] at hc
        simp at hc
        cases hfs : mapFirstLocalF l f cs with
        | some cs2 =>
          rw [hfs] at hcs
          simp at hcs
          simp [mapFirstLocalF, localNamesF, hfc, hfs]
          intro _
          exact hcs
        | none =>
          rw [hfs] at hcs
          simp at hcs
          simp [mapFirstLocalF, localNamesF, hfc, hfs, hc, hcs]

theorem mapFirstLocalF_none_iff (l : String) (f : XNode → XNode) (L : List XNode) :
    mapFirstLocalF l f L = none ↔ l ∉ localNamesF L := (mapFirstLocal_none_iff l f).2 L

theorem localNamesF_append (a b : List XNode) :
    localNamesF (a ++ b) = localNamesF a ++ localNamesF b := by
  induction a with
  | nil => simp [localNamesF]
  | cons c cs ih => simp [localNamesF, ih]

theorem countTagF_append (t : String) (a b : List XNode) :
    countTagF t (a ++ b) = countTagF t a + countTagF t b := by
  induction a with
  | nil => simp [countTagF]
  | cons c cs ih => simp [countTagF, ih]; omega

theorem findLocalF_append (l : String) (a b : List XNode) :
    findLocalF l (a ++ b) =
      match findLocalF l a with
      | some e => some e
      | none => findLocalF l b := by
  induction a with
  | nil => simp [findLocalF]
  | cons c cs ih =>
    simp only [List.cons_append, findLocalF]
    cases findLocalN l c with
    | some e => simp
    | none => simpa using ih

/-! ### Package lemmas -/

theorem zfind_zset_self (z : Package) (p : String) (d : XDoc) :
    zfind (zset z p d) p = some d := by
  induction z with
  | nil => simp [zset, zfind]
  | cons e rest ih =>
    by_cases h : e.1 = p
    · simp [zset, h, zfind, List.find?]
    · simp only [zset, h, if_false]
      simpa [zfind, List.find?, h] using ih

theorem zfind_zset_other (z : Package) (p q : String) (d : XDoc) (hne : q ≠ p) :
    zfind (zset z p d) q = zfind z q := by
  induction z with
  | nil => simp [zset, zfind, List.find?, Ne.symm hne]
  | cons e rest ih =>
    by_cases h : e.1 = p
    · have : ¬ e.1 = q := by rw [h]; exact Ne.symm hne
      simp [zset, h, zfind, List.find?, Ne.symm hne, this]
    · simp only [zset, h, if_false]
      by_cases hq : e.1 = q
      · simp [zfind, List.find?, hq]
      · simpa [zfind, List.find?, hq] using ih

theorem zkeys_zset_of_mem (z : Package) (p : String) (d : XDoc) (h : p ∈ zkeys z) :
    zkeys (zset z p d) = zkeys z := by
  induction z with
  | nil => simp [zkeys] at h
  | cons e rest ih =>
    by_cases he : e.1 = p
    · simp [zset, he, zkeys]
    · have h' : p ∈ zkeys rest := by
        simp only [zkeys, List.map_cons, List.mem_cons] at h
        rcases h with h | h
        · exact absurd h.symm he
        · simpa [zkeys] using h
      simp only [zset, he, if_false, zkeys, List.map_cons, List.cons.injEq, true_and]
      simpa [zkeys] using ih h'

theorem zfind_isSome_iff (z : Package) (p : String) :
    (zfind z p).isSome = true ↔ p ∈ zkeys z := by
  induction z with
  | nil => simp [zfind, zkeys, List.find?]
  | cons e rest ih =>
    by_cases h : e.1 = p
    · simp [zfind, List.find?, h, zkeys]
    · simp only [zkeys, List.map_cons, List.mem_cons]
      simpa [zfind, List.find?, h, zkeys, Ne.symm h] using ih

/-! ### String path lemmas -/

theorem strExt (s t : String) (h : s.data = t.data) : s = t := by
  cases s; cases t; simp_all

theorem strStarts_append (p q : String) : strStarts (p ++ q) p = true := by
  simp [strStarts, String.data_append, List.isPrefixOf_iff_prefix]

theorem strDrop_wsDir_append (rel : String) : strDrop (wsDir ++ rel) 14 = rel := by
  have h : (wsDir ++ rel).data = wsDir.data ++ rel.data := String.data_append _ _
  have hlen : wsDir.data.length = 14 := rfl
  apply strExt
  simp [strDrop, h, List.drop_left' hlen]

theorem wsDir_recon (s : String) (h : strStarts s wsDir = true) :
    wsDir ++ strDrop s 14 = s := by
  have hp : wsDir.data <+: s.data := List.isPrefixOf_iff_prefix.mp h
  obtain ⟨t, ht⟩ := hp
  apply strExt
  rw [String.data_append]
  show wsDir.data ++ s.data.drop 14 = s.data
  rw [← ht]
  have hlen : wsDir.data.length = 14 := rfl
  rw [List.drop_left' hlen]

theorem wsDir_append_inj (a b : String) (h : wsDir ++ a = wsDir ++ b) : a = b := by
  have hd : wsDir.data ++ a.data = wsDir.data ++ b.data := by
    have := congrArg String.data h
    simpa [String.data_append] using this
  exact strExt a b (List.append_cancel_left hd)

theorem mem_wsRels (z : Package) (rel : String) :
    rel ∈ wsRels z ↔ wsDir ++ rel ∈ zkeys z ∧ strEnds rel ".xml" = true := by
  constructor
  · intro h
    simp [wsRels, List.mem_filterMap] at h
    obtain ⟨pth, hmem, hcond⟩ := h
    by_cases hc : strStarts pth wsDir = true ∧ strEnds (strDrop pth 14) ".xml" = true
    · have hrel : strDrop pth 14 = rel := by
        by_contra hne
        simp [hc.1, hc.2, hne] at hcond
      have : wsDir ++ rel = pth := by rw [← hrel]; exact wsDir_recon pth hc.1
      exact ⟨this ▸ hmem, hrel ▸ hc.2⟩
    · exfalso
      rcases not_and_or.mp hc with hc1 | hc2
      · simp [Bool.not_eq_true] at hc1
        simp [hc1] at hcond
      · simp [Bool.not_eq_true] at hc2
        simp [hc2] at hcond
  · intro ⟨hmem, hend⟩
    simp [wsRels, List.mem_filterMap]
    refine ⟨wsDir ++ rel, hmem, ?_⟩
    simp [strStarts_append, strDrop_wsDir_append, hend]

/-! ### Worksheet-loop characterisation -/

theorem wbPath_not_ws (rel : String) : wsDir ++ rel ≠ wbPath := by
  intro h
  have h1 : strStarts wbPath wsDir = true := h ▸ strStarts_append wsDir rel
  have h2 : strStarts wbPath wsDir = false := rfl
  rw [h2] at h1
  simp at h1

theorem go_flag (rels : List String) : ∀ z w pr,
    (stripSheetsGo rels z w pr).2.1 = (w || rels.any (shHasAt z)) := by
  induction rels with
  | nil => intro z w pr; simp [stripSheetsGo]
  | cons rel rest ih =>
    intro z w pr
    simp only [stripSheetsGo]
    cases hf : zfind z (wsDir ++ rel) with
    | none =>
      rw [ih]
      simp [List.any_cons, shHasAt, hf]
    | some d =>
      by_cases hc : 0 < countTagF "sheetProtection" d
      · simp only [hc, if_true]
        rw [ih]
        simp [List.any_cons, shHasAt, hf, hc]
      · simp only [hc, if_false]
        rw [ih]
        simp [List.any_cons, shHasAt, hf, hc]

theorem go_progress (rels : List String) : ∀ z w pr,
    (stripSheetsGo rels z w pr).2.2 =
      pr ++ (if w = false ∧ rels.any (shHasAt z) = true then [msgFound] else []) := by
  induction rels with
  | nil => intro z w pr; simp [stripSheetsGo]
  | cons rel rest ih =>
    intro z w pr
    simp only [stripSheetsGo]
    cases hf : zfind z (wsDir ++ rel) with
    | none =>
      rw [ih]
      simp [List.any_cons, shHasAt, hf]
    | some d =>
      by_cases hc : 0 < countTagF "sheetProtection" d
      · simp only [hc, if_true]
        rw [ih]
        cases w with
        | false => simp [List.any_cons, shHasAt, hf, hc]
        | true => simp [List.any_cons, shHasAt, hf, hc]
      · simp only [hc, if_false]
        rw [ih]
        simp [List.any_cons, shHasAt, hf, hc]

theorem go_frame (rels : List String) : ∀ z w pr p, p ∉ rels.map (fun r => wsDir ++ r) →
    zfind (stripSheetsGo rels z w pr).1 p = zfind z p := by
  induction rels with
  | nil => intro z w pr p _; simp [stripSheetsGo]
  | cons rel rest ih =>
    intro z w pr p hp
    simp only [List.map_cons, List.mem_cons, not_or] at hp
    simp only [stripSheetsGo]
    cases hf : zfind z (wsDir ++ rel) with
    | none => exact ih z w pr p hp.2
    | some d =>
      by_cases hc : 0 < countTagF "sheetProtection" d
      · simp only [hc, if_true]
        rw [ih _ _ _ p hp.2]
        exact zfind_zset_other _ _ _ _ hp.1
      · simp only [hc, if_false]
        exact ih z w pr p hp.2

theorem go_keys (rels : List String) : ∀ z w pr,
    zkeys (stripSheetsGo rels z w pr).1 = zkeys z := by
  induction rels with
  | nil => intro z w pr; simp [stripSheetsGo]
  | cons rel rest ih =>
    intro z w pr
    simp only [stripSheetsGo]
    cases hf : zfind z (wsDir ++ rel) with
    | none => exact ih z w pr
    | some d =>
      by_cases hc : 0 < countTagF "sheetProtection" d
      · simp only [hc, if_true]
        rw [ih]
        apply zkeys_zset_of_mem
        rw [← zfind_isSome_iff, hf]
        rfl
      · simp only [hc, if_false]
        exact ih z w pr

theorem go_unmarked (rels : List String) : ∀ z w pr, rels.Nodup →
    ∀ rel ∈ rels, shHasAt z rel = false →
    zfind (stripSheetsGo rels z w pr).1 (wsDir ++ rel) = zfind z (wsDir ++ rel) := by
  induction rels with
  | nil => intro z w pr _ rel h; simp at h
  | cons rel0 rest ih =>
    intro z w pr hnd rel hmem hno
    have hnd0 : rel0 ∉ rest := (List.nodup_cons.mp hnd).1
    have hndr : rest.Nodup := (List.nodup_cons.mp hnd).2
    by_cases heq : rel = rel0
    · -- the iteration for `rel` itself: no marker, so no write; the rest never touches it
      subst heq
      have hout : ∀ z2 w2 pr2, zfind (stripSheetsGo rest z2 w2 pr2).1 (wsDir ++ rel) = zfind z2 (wsDir ++ rel) := by
        intro z2 w2 pr2
        apply go_frame
        intro hin
        rcases List.mem_map.mp hin with ⟨r, hr, hreq⟩
        exact hnd0 (wsDir_append_inj r rel hreq ▸ hr)
      simp only [stripSheetsGo]
      cases hf : zfind z (wsDir ++ rel) with
      | none => exact (hout z w pr).trans hf
      | some d =>
        have hc : ¬ 0 < countTagF "sheetProtection" d := by
          simpa [shHasAt, hf] using hno
        simp only [hc, if_false]
        exact (hout z w pr).trans hf
    · have hrest : rel ∈ rest := (List.mem_cons.mp hmem).resolve_left heq
      have hpne : wsDir ++ rel ≠ wsDir ++ rel0 := fun h => heq (wsDir_append_inj _ _ h)
      simp only [stripSheetsGo]
      cases hf : zfind z (wsDir ++ rel0) with
      | none => exact ih z w pr hndr rel hrest hno
      | some d =>
        by_cases hc : 0 < countTagF "sheetProtection" d
        · simp only [hc, if_true]
          have hlook : zfind (zset z (wsDir ++ rel0) (removeTagF "sheetProtection" d)) (wsDir ++ rel)
              = zfind z (wsDir ++ rel) := zfind_zset_other _ _ _ _ hpne
          have hno' : shHasAt (zset z (wsDir ++ rel0) (removeTagF "sheetProtection" d)) rel = false := by
            simp only [shHasAt, hlook]
            simpa [shHasAt] using hno
          rw [ih _ _ _ hndr rel hrest hno', hlook]
        · simp only [hc, if_false]
          exact ih z w pr hndr rel hrest hno

theorem go_marked (rels : List String) : ∀ z w pr, rels.Nodup →
    ∀ rel ∈ rels, ∀ d, zfind z (wsDir ++ rel) = some d → 0 < countTagF "sheetProtection" d →
    zfind (stripSheetsGo rels z w pr).1 (wsDir ++ rel) = some (removeTagF "sheetProtection" d) := by
  induction rels with
  | nil => intro z w pr _ rel h; simp at h
  | cons rel0 rest ih =>
    intro z w pr hnd rel hmem d hf hc
    have hnd0 : rel0 ∉ rest := (List.nodup_cons.mp hnd).1
    have hndr : rest.Nodup := (List.nodup_cons.mp hnd).2
    by_cases heq : rel = rel0
    · subst heq
      simp only [stripSheetsGo, hf, hc, if_true]
      have hself : zfind (zset z (wsDir ++ rel) (removeTagF "sheetProtection" d)) (wsDir ++ rel)
          = some (removeTagF "sheetProtection" d) := zfind_zset_self _ _ _
      rw [go_frame, hself]
      intro hin
      rcases List.mem_map.mp hin with ⟨r, hr, hreq⟩
      exact hnd0 (wsDir_append_inj r rel hreq ▸ hr)
    · have hrest : rel ∈ rest := (List.mem_cons.mp hmem).resolve_left heq
      have hpne : wsDir ++ rel ≠ wsDir ++ rel0 := fun h => heq (wsDir_append_inj _ _ h)
      simp only [stripSheetsGo]
      cases hf0 : zfind z (wsDir ++ rel0) with
      | none => exact ih z w pr hndr rel hrest d hf hc
      | some d0 =>
        by_cases hc0 : 0 < countTagF "sheetProtection" d0
        · simp only [hc0, if_true]
          have hlook : zfind (zset z (wsDir ++ rel0) (removeTagF "sheetProtection" d0)) (wsDir ++ rel)
              = zfind z (wsDir ++ rel) := zfind_zset_other _ _ _ _ hpne
          exact ih _ _ _ hndr rel hrest d (by rw [hlook]; exact hf) hc
        · simp only [hc0, if_false]
          exact ih z w pr hndr rel hrest d hf hc

theorem go_id (rels : List String) : ∀ z w pr, (∀ rel ∈ rels, shHasAt z rel = false) →
    stripSheetsGo rels z w pr = (z, w, pr) := by
  induction rels with
  | nil => intro z w pr _; simp [stripSheetsGo]
  | cons rel rest ih =>
    intro z w pr h
    have h0 := h rel (List.mem_cons_self rel rest)
    simp only [stripSheetsGo]
    cases hf : zfind z (wsDir ++ rel) with
    | none => exact ih z w pr (fun r hr => h r (List.mem_cons_of_mem rel hr))
    | some d =>
      have hc : ¬ 0 < countTagF "sheetProtection" d := by
        simpa [shHasAt, hf] using h0
      simp only [hc, if_false]
      exact ih z w pr (fun r hr => h r (List.mem_cons_of_mem rel hr))

/-! ### Workbook-step characterisation -/

theorem wbStep_flag (z : Package) : (stripWorkbookStep z).2.1 = wbHas z := by
  unfold stripWorkbookStep wbHas
  cases hf : zfind z wbPath with
  | none => rfl
  | some d =>
    by_cases hc : 0 < countTagF "workbookProtection" d
    · simp [hc]
    · simp [hc]

theorem wbStep_progress (z : Package) :
    (stripWorkbookStep z).2.2 = if wbHas z = true then [msgRemovingWb] else [] := by
  unfold stripWorkbookStep wbHas
  cases hf : zfind z wbPath with
  | none => rfl
  | some d =>
    by_cases hc : 0 < countTagF "workbookProtection" d
    · simp [hc]
    · simp [hc]

theorem wbStep_no (z : Package) (h : wbHas z = false) : stripWorkbookStep z = (z, false, []) := by
  unfold stripWorkbookStep
  unfold wbHas at h
  cases hf : zfind z wbPath with
  | none => rfl
  | some d =>
    rw [hf] at h
    simp at h
    simp [h]

theorem wbStep_frame (z : Package) (p : String) (h : p ≠ wbPath) :
    zfind (stripWorkbookStep z).1 p = zfind z p := by
  unfold stripWorkbookStep
  cases hf : zfind z wbPath with
  | none => rfl
  | some d =>
    by_cases hc : 0 < countTagF "workbookProtection" d
    · simp only [hc, if_true]
      exact zfind_zset_other _ _ _ _ h
    · simp [hc]

theorem wbStep_keys (z : Package) : zkeys (stripWorkbookStep z).1 = zkeys z := by
  unfold stripWorkbookStep
  cases hf : zfind z wbPath with
  | none => rfl
  | some d =>
    by_cases hc : 0 < countTagF "workbookProtection" d
    · simp only [hc, if_true]
      apply zkeys_zset_of_mem
      rw [← zfind_isSome_iff, hf]
      rfl
    · simp [hc]

theorem wbStep_wb_clean (z : Package) :
    ∀ d', zfind (stripWorkbookStep z).1 wbPath = some d' →
      countTagF "workbookProtection" d' = 0 := by
  intro d' h
  unfold stripWorkbookStep at h
  cases hf : zfind z wbPath with
  | none =>
    rw [hf] at h
    simp only [] at h
    rw [hf] at h
    exact absurd h (by simp)
  | some d =>
    rw [hf] at h
    by_cases hc : 0 < countTagF "workbookProtection" d
    · simp only [hc, if_true] at h
      rw [zfind_zset_self] at h
      cases h
      exact countTagF_removeTagF _ _
    · simp only [hc, if_false] at h
      rw [hf] at h
      cases h
      omega

theorem wbStep_wb_doc (z : Package) (d : XDoc) (hf : zfind z wbPath = some d)
    (hc : 0 < countTagF "workbookProtection" d) :
    zfind (stripWorkbookStep z).1 wbPath = some (removeTagF "workbookProtection" d) := by
  unfold stripWorkbookStep
  rw [hf]
  simp only [hc, if_true]
  exact zfind_zset_self _ _ _

theorem wbStep_shHasAt (z : Package) (rel : String) :
    shHasAt (stripWorkbookStep z).1 rel = shHasAt z rel := by
  unfold shHasAt
  rw [wbStep_frame z _ (wbPath_not_ws rel)]

theorem wbStep_wsRels (z : Package) : wsRels (stripWorkbookStep z).1 = wsRels z := by
  unfold wsRels
  rw [wbStep_keys]

/-! ### stripCore characterisation -/

theorem stripCore_flag (z : Package) : (stripCore z).2.1 = hasAnyMarker z := by
  unfold stripCore hasAnyMarker shHas
  rw [go_flag, wbStep_flag, wbStep_wsRels]
  congr 1
  exact congrArg _ (funext (wbStep_shHasAt z))

theorem stripCore_progress (z : Package) :
    (stripCore z).2.2 =
      (if wbHas z = true then [msgRemovingWb] else []) ++ [msgScanning] ++
        (if wbHas z = false ∧ shHas z = true then [msgFound] else []) := by
  unfold stripCore
  rw [go_progress, wbStep_progress, wbStep_flag, wbStep_wsRels]
  have hsh : (wsRels z).any (shHasAt (stripWorkbookStep z).1) = shHas z := by
    unfold shHas
    exact congrArg _ (funext (wbStep_shHasAt z))
  rw [hsh]

theorem stripCore_noMarker (z : Package) (h : hasAnyMarker z = false) :
    stripCore z = (z, false, [msgScanning]) := by
  unfold hasAnyMarker at h
  simp only [Bool.or_eq_false_iff] at h
  unfold stripCore
  rw [wbStep_no z h.1]
  simp only []
  rw [go_id]
  · simp
  · intro rel hrel
    unfold shHas at h
    have := h.2
    rw [List.any_eq_false] at this
    simpa using this rel hrel

theorem stripCore_keys (z : Package) : zkeys (stripCore z).1 = zkeys z := by
  unfold stripCore
  rw [go_keys, wbStep_keys]

theorem stripCore_wsRels (z : Package) : wsRels (stripCore z).1 = wsRels z := by
  unfold wsRels
  rw [stripCore_keys]

theorem wsRels_nodup (z : Package) (hnd : (zkeys z).Nodup) : (wsRels z).Nodup := by
  unfold wsRels
  apply List.Nodup.filterMap _ hnd
  intro a a' b hb hb'
  by_cases ha : strStarts a wsDir = true ∧ strEnds (strDrop a 14) ".xml" = true
  · by_cases ha' : strStarts a' wsDir = true ∧ strEnds (strDrop a' 14) ".xml" = true
    · simp [ha.1, ha.2] at hb
      simp [ha'.1, ha'.2] at hb'
      rw [← wsDir_recon a ha.1, ← wsDir_recon a' ha'.1, hb, hb']
    · exfalso
      rcases not_and_or.mp ha' with hc | hc
      · simp [Bool.not_eq_true] at hc
        simp [hc] at hb'
      · simp [Bool.not_eq_true] at hc
        simp [hc] at hb'
  · exfalso
    rcases not_and_or.mp ha with hc | hc
    · simp [Bool.not_eq_true] at hc
      simp [hc] at hb
    · simp [Bool.not_eq_true] at hc
      simp [hc] at hb

theorem stripCore_wb_clean (z : Package) :
    ∀ d', zfind (stripCore z).1 wbPath = some d' → countTagF "workbookProtection" d' = 0 := by
  intro d' h
  unfold stripCore at h
  rw [go_frame] at h
  · exact wbStep_wb_clean z d' h
  · intro hin
    rcases List.mem_map.mp hin with ⟨r, _, hreq⟩
    exact wbPath_not_ws r hreq

theorem stripCore_ws_clean (z : Package) (hnd : (zkeys z).Nodup) :
    ∀ rel ∈ wsRels z, ∀ d, zfind (stripCore z).1 (wsDir ++ rel) = some d →
      countTagF "sheetProtection" d = 0 := by
  intro rel hrel d h
  have hndw : (wsRels z).Nodup := wsRels_nodup z hnd
  have hrel1 : rel ∈ wsRels (stripWorkbookStep z).1 := by rw [wbStep_wsRels]; exact hrel
  simp only [stripCore] at h
  rw [wbStep_wsRels] at h
  cases hf : zfind (stripWorkbookStep z).1 (wsDir ++ rel) with
  | none =>
    have hno : shHasAt (stripWorkbookStep z).1 rel = false := by simp [shHasAt, hf]
    rw [go_unmarked _ _ _ _ hndw rel hrel hno, hf] at h
    cases h
  | some d0 =>
    by_cases hc : 0 < countTagF "sheetProtection" d0
    · rw [go_marked _ _ _ _ hndw rel hrel d0 hf hc] at h
      cases h
      exact countTagF_removeTagF _ _
    · have hno : shHasAt (stripWorkbookStep z).1 rel = false := by
        simp [shHasAt, hf]
        omega
      rw [go_unmarked _ _ _ _ hndw rel hrel hno, hf] at h
      cases h
      omega

theorem stripCore_frame (z : Package) (hnd : (zkeys z).Nodup) :
    ∀ p d, zfind z p = some d →
      (p = wbPath → countTagF "workbookProtection" d = 0) →
      (∀ rel, rel ∈ wsRels z → p = wsDir ++ rel → countTagF "sheetProtection" d = 0) →
      zfind (stripCore z).1 p = some d := by
  intro p d hf hwb hws
  have hndw : (wsRels z).Nodup := wsRels_nodup z hnd
  by_cases hp : p = wbPath
  · subst hp
    have hno : wbHas z = false := by
      simp [wbHas, hf, hwb rfl]
    simp only [stripCore]
    rw [wbStep_no z hno]
    simp only []
    rw [go_frame]
    · exact hf
    · intro hin
      rcases List.mem_map.mp hin with ⟨r, _, hreq⟩
      exact wbPath_not_ws r hreq
  · have hstep : zfind (stripWorkbookStep z).1 p = some d := by
      rw [wbStep_frame z p hp]; exact hf
    simp only [stripCore]
    rw [wbStep_wsRels]
    by_cases hin : p ∈ (wsRels z).map (fun r => wsDir ++ r)
    · rcases List.mem_map.mp hin with ⟨rel, hrel, hreq⟩
      subst hreq
      have hcount : countTagF "sheetProtection" d = 0 := hws rel hrel rfl
      have hno : shHasAt (stripWorkbookStep z).1 rel = false := by
        simp [shHasAt, hstep]
        omega
      rw [go_unmarked _ _ _ _ hndw rel hrel hno]
      exact hstep
    · rw [go_frame _ _ _ _ _ hin]
      exact hstep

/-! ### Claim C1 -/

/-- C1: for every input file whose (lower-cased) name ends in the `.xlsx`
extension and whose first 8 bytes are the OLE compound-file signature
`D0 CF 11 E0 A1 B1 1A E1` (big-endian words `0xD0CF11E0`, `0xA1B11AE1`),
`unprotectFile` always fails with exactly the distinct encrypted-package
("Password to Open") message, emits no progress step and performs no
further processing of the package — whatever the remaining bytes are and
whatever the zip loader would have produced. -/
theorem C1_encrypted_rejected (name : String) (bytes : List Nat) (loadRes : Option Package)
    (hname : strEnds (strLower name) ".xlsx" = true)
    (hhdr : bytes.take 8 = [0xD0, 0xCF, 0x11, 0xE0, 0xA1, 0xB1, 0x1A, 0xE1]) :
    unprotectFile name bytes loadRes = (.error errEnc, []) := by
  have hlen : 8 ≤ bytes.length := by
    have := congrArg List.length hhdr
    simp [List.length_take] at this
    omega
  have hb : ∀ i, i < 8 → bytes.getD i 0 = [0xD0, 0xCF, 0x11, 0xE0, 0xA1, 0xB1, 0x1A, 0xE1].getD i 0 := by
    intro i hi
    rw [← hhdr]
    simp [List.getD_eq_getElem?_getD, List.getElem?_take, hi]
  have hv0 : readU32BE bytes 0 = 0xD0CF11E0 := by
    unfold readU32BE
    rw [hb 0 (by omega), hb 1 (by omega), hb 2 (by omega), hb 3 (by omega)]
    decide
  have hv4 : readU32BE bytes 4 = 0xA1B11AE1 := by
    unfold readU32BE
    rw [hb 4 (by omega), hb 5 (by omega), hb 6 (by omega), hb 7 (by omega)]
    decide
  have hc : containsSub errEnc "Password to Open" = true := by decide
  simp [unprotectFile, hname, hlen, hv0, hv4, hc]

theorem C1_encrypted_rejected_witness :
    unprotectFile "locked.xlsx" [0xD0, 0xCF, 0x11, 0xE0, 0xA1, 0xB1, 0x1A, 0xE1, 7, 7]
        (some [(wbPath, [XNode.elem "workbook" none [] []])])
      = (.error errEnc, []) :=
  C1_encrypted_rejected _ _ _ (by decide) (by decide)

/-! ### Claim C2 -/

/-- C2: for every loaded package processed by the unprotect flow, the
returned `wasProtected` flag is true iff at least one `workbookProtection`
element (in the workbook part) or `sheetProtection` element (in some
worksheet part) existed in the package before stripping; and for a package
with no protection markers the flag is false and every part's decoded
content is unchanged (the whole part map is returned as it was). -/
theorem C2_wasProtected_iff (z z' : Package) (w : Bool) (pr : List String)
    (h : processModernFile (some z) = (.ok (z', w), pr)) :
    (w = true ↔ hasAnyMarker z = true) ∧
    (hasAnyMarker z = false → w = false ∧ z' = z) := by
  have h1 := congrArg Prod.fst h
  simp only [processModernFile] at h1
  simp at h1
  obtain ⟨hz', hw⟩ := h1
  constructor
  · rw [← hw, stripCore_flag]
  · intro h0
    have hstr := stripCore_noMarker z h0
    constructor
    · rw [← hw, stripCore_flag, h0]
    · rw [← hz', hstr]

theorem C2_wasProtected_iff_witness :
    ((true : Bool) = true ↔ hasAnyMarker
        [(wbPath, [XNode.elem "workbook" none [] [XNode.elem "workbookProtection" none [] []]])] = true) ∧
    (hasAnyMarker
        [(wbPath, [XNode.elem "workbook" none [] [XNode.elem "workbookProtection" none [] []]])] = false →
      (true : Bool) = false ∧
        [(wbPath, [XNode.elem "workbook" none [] []])]
          = [(wbPath, [XNode.elem "workbook" none [] [XNode.elem "workbookProtection" none [] []]])]) :=
  C2_wasProtected_iff _ _ _ _ rfl

/-! ### Claim C4 -/

/-- C4 counterexample: a workbook part whose only protection marker is
written with a namespace prefix (tag `x:workbookProtection`, local name
`workbookProtection`) is not matched by the stripper: nothing is removed and
`wasProtected = false`, although an element with local name
`workbookProtection` is present — so matching is not independent of the
namespace prefix. -/
theorem C4_cex :
    countLocalF "workbookProtection" [XNode.elem "x:workbookProtection" none [] []] = 1 ∧
    stripCore [(wbPath, [XNode.elem "x:workbookProtection" none [] []])]
      = ([(wbPath, [XNode.elem "x:workbookProtection" none [] []])], false, [msgScanning]) :=
  ⟨rfl, rfl⟩

/-- C4 amended: the Protection Stripper matches marker elements by their
qualified tag name exactly as written (via `getElementsByTagName`), not by
local name: every element whose tag is exactly `workbookProtection` is
removed from the workbook part and every element whose tag is exactly
`sheetProtection` from every worksheet part, while a part containing no
tag-exact marker — even one whose markers carry a namespace prefix — is
passed through unchanged. -/
theorem C4_tag_match (z : Package) (hnd : (zkeys z).Nodup) :
    (∀ d', zfind (stripCore z).1 wbPath = some d' → countTagF "workbookProtection" d' = 0) ∧
    (∀ rel ∈ wsRels z, ∀ d, zfind (stripCore z).1 (wsDir ++ rel) = some d →
        countTagF "sheetProtection" d = 0) ∧
    (∀ p d, zfind z p = some d → countTagF "workbookProtection" d = 0 →
        countTagF "sheetProtection" d = 0 → zfind (stripCore z).1 p = some d) :=
  ⟨stripCore_wb_clean z, stripCore_ws_clean z hnd, fun p d hf h1 h2 =>
    stripCore_frame z hnd p d hf (fun _ => h1) (fun _ _ _ => h2)⟩

theorem C4_tag_match_witness :
    zfind (stripCore [(wbPath, [XNode.elem "x:workbookProtection" none [] []])]).1 wbPath
      = some [XNode.elem "x:workbookProtection" none [] []] :=
  (C4_tag_match _ (by decide)).2.2 wbPath _ rfl rfl rfl

/-! ### Claim C5 -/

/-- C5: every part that contains no protection marker is passed through
with its decoded content unchanged (the code never reserializes it, so its
stored bytes can only change through recompression of the whole archive);
after stripping, every worksheet part is free of `sheetProtection`
elements; and if any worksheet part held a marker, `wasProtected = true`. -/
theorem C5_frame_effect (z : Package) (hnd : (zkeys z).Nodup) :
    (∀ p d, zfind z p = some d →
        (p = wbPath → countTagF "workbookProtection" d = 0) →
        (∀ rel, rel ∈ wsRels z → p = wsDir ++ rel → countTagF "sheetProtection" d = 0) →
        zfind (stripCore z).1 p = some d) ∧
    (∀ rel ∈ wsRels z, ∀ d, zfind (stripCore z).1 (wsDir ++ rel) = some d →
        countTagF "sheetProtection" d = 0) ∧
    (shHas z = true → (stripCore z).2.1 = true) := by
  refine ⟨stripCore_frame z hnd, stripCore_ws_clean z hnd, fun h => ?_⟩
  rw [stripCore_flag]
  unfold hasAnyMarker
  rw [h]
  simp

theorem C5_frame_effect_witness :
    zfind (stripCore
        [("xl/worksheets/sheet1.xml", [XNode.elem "worksheet" none [] [XNode.elem "sheetProtection" none [] []]]),
         ("xl/worksheets/sheet2.xml", [XNode.elem "worksheet" none [] []])]).1
        "xl/worksheets/sheet2.xml" = some [XNode.elem "worksheet" none [] []] ∧
    (stripCore
        [("xl/worksheets/sheet1.xml", [XNode.elem "worksheet" none [] [XNode.elem "sheetProtection" none [] []]]),
         ("xl/worksheets/sheet2.xml", [XNode.elem "worksheet" none [] []])]).2.1 = true :=
  ⟨(C5_frame_effect _ (by decide)).1 _ _ rfl (by decide) (by decide),
   (C5_frame_effect _ (by decide)).2.2 rfl⟩

/-! ### Claim C6 -/

/-- C6: the Protection Stripper is idempotent — running the unprotect flow
again on its own output yields `wasProtected = false`, returns the package
unchanged (modulo recompression of the archive, which is outside the part
map), and emits only the unconditional progress steps. -/
theorem C6_idempotent (z : Package) (hnd : (zkeys z).Nodup) :
    processModernFile (some (stripCore z).1)
      = (.ok ((stripCore z).1, false),
         [msgReading, msgAnalyzing, msgScanning, msgRepackaging, msgCompleted]) := by
  have hwb : wbHas (stripCore z).1 = false := by
    unfold wbHas
    cases hf : zfind (stripCore z).1 wbPath with
    | none => rfl
    | some d' =>
      have := stripCore_wb_clean z d' hf
      simp [this]
  have hsh : shHas (stripCore z).1 = false := by
    unfold shHas
    rw [stripCore_wsRels, List.any_eq_false]
    intro rel hrel
    unfold shHasAt
    cases hf : zfind (stripCore z).1 (wsDir ++ rel) with
    | none => simp
    | some d =>
      have := stripCore_ws_clean z hnd rel hrel d hf
      simp [this]
  have hno : hasAnyMarker (stripCore z).1 = false := by
    unfold hasAnyMarker
    rw [hwb, hsh]
    rfl
  have h2 := stripCore_noMarker _ hno
  simp only [processModernFile, h2]
  rfl

theorem C6_idempotent_witness :
    processModernFile (some (stripCore
        [(wbPath, [XNode.elem "workbook" none [] [XNode.elem "workbookProtection" none [] []]])]).1)
      = (.ok ((stripCore
            [(wbPath, [XNode.elem "workbook" none [] [XNode.elem "workbookProtection" none [] []]])]).1, false),
         [msgReading, msgAnalyzing, msgScanning, msgRepackaging, msgCompleted]) :=
  C6_idempotent _ (by decide)

/-! ### Claim C7 -/

/-- C7 counterexample: for a package holding both a workbook marker and a
sheet marker, the run succeeds and emits reading → analyzing →
removing-workbook → scanning → repackaging → completed, but never the
"Found protection in sheets..." step, although a worksheet part contained a
`sheetProtection` marker — so that step is not emitted exactly when some
worksheet part has a marker. -/
theorem C7_cex :
    shHas [(wbPath, [XNode.elem "workbook" none [] [XNode.elem "workbookProtection" none [] []]]),
           ("xl/worksheets/sheet1.xml",
             [XNode.elem "worksheet" none [] [XNode.elem "sheetProtection" none [] []]])] = true ∧
    (processModernFile (some
        [(wbPath, [XNode.elem "workbook" none [] [XNode.elem "workbookProtection" none [] []]]),
         ("xl/worksheets/sheet1.xml",
           [XNode.elem "worksheet" none [] [XNode.elem "sheetProtection" none [] []]])])).2
      = [msgReading, msgAnalyzing, msgRemovingWb, msgScanning, msgRepackaging, msgCompleted] ∧
    msgFound ∉ [msgReading, msgAnalyzing, msgRemovingWb, msgScanning, msgRepackaging, msgCompleted] :=
  ⟨rfl, rfl, by decide⟩

/-- C7 amended: every run of the unprotect flow on a loaded package succeeds
and emits its progress checkpoints in exactly the fixed order
reading-structure, analyzing-workbook, [removing-workbook-protection],
scanning-worksheets, [protection-found-in-sheets], repackaging, completed,
where removing-workbook-protection appears exactly when the workbook part
contains a `workbookProtection` marker, and protection-found-in-sheets
appears exactly when some worksheet part contains a `sheetProtection`
marker AND the workbook part contained none. -/
theorem C7_progress_order (z : Package) :
    processModernFile (some z)
      = (.ok ((stripCore z).1, hasAnyMarker z),
          [msgReading, msgAnalyzing] ++ (if wbHas z = true then [msgRemovingWb] else []) ++
            [msgScanning] ++ (if wbHas z = false ∧ shHas z = true then [msgFound] else []) ++
            [msgRepackaging, msgCompleted]) := by
  simp only [processModernFile]
  rw [stripCore_progress, stripCore_flag]
  simp

/-! ### Claim C8 -/

/-- C8 counterexample: a zip-load failure is not surfaced as the single
generic user-facing message — the underlying corruption message itself is
rethrown — although it is not one of the two password-related kinds. -/
theorem C8_cex :
    unprotectFile "a.xlsx" [] none = (.error errCorrupt, [msgReading]) ∧
    errCorrupt ≠ errGeneric ∧
    containsSub errCorrupt "Password to Open" = false ∧
    containsSub errCorrupt "Password" = false :=
  ⟨rfl, by decide, by decide, by decide⟩

/-- C8 amended: the outer catch of `unprotectFile` rethrows password-related
messages unchanged and rewraps any other failure preserving its own message
whenever that message is non-empty (the generic message is used only for an
empty one); consequently every failure of `unprotectFile` surfaces one of
the three concrete internal messages — extension, encrypted-package or
corrupt-structure — never the generic fallback. -/
theorem C8_wrap_preserves :
    (∀ e, e ≠ "" → wrapErr e = e) ∧
    (∀ name bytes loadRes m, (unprotectFile name bytes loadRes).1 = .error m →
        m = errExt ∨ m = errEnc ∨ m = errCorrupt) := by
  constructor
  · intro e he
    unfold wrapErr
    by_cases hc : (containsSub e "Password to Open" || containsSub e "Password") = true
    · simp [hc]
    · have hb : (containsSub e "Password to Open" || containsSub e "Password") = false := by
        simpa using hc
      simp [hb, he]
  · intro name bytes loadRes m h
    have hwc : wrapErr errCorrupt = errCorrupt := by decide
    have hpw : containsSub errEnc "Password to Open" = true := by decide
    unfold unprotectFile at h
    cases hname : strEnds (strLower name) ".xlsx" with
    | false =>
      rw [hname] at h
      simp at h
      exact Or.inl h.symm
    | true =>
      rw [hname] at h
      simp only [Bool.not_true, Bool.false_eq_true, if_false] at h
      by_cases hmagic : 8 ≤ bytes.length ∧ readU32BE bytes 0 = 0xD0CF11E0 ∧ readU32BE bytes 4 = 0xA1B11AE1
      · rw [if_pos hmagic, if_pos hpw] at h
        simp at h
        exact Or.inr (Or.inl h.symm)
      · rw [if_neg hmagic] at h
        cases loadRes with
        | none =>
          simp [processModernFile, hwc] at h
          exact Or.inr (Or.inr h.symm)
        | some z =>
          simp [processModernFile] at h

theorem C8_wrap_preserves_witness :
    wrapErr errCorrupt = errCorrupt ∧
    (errCorrupt = errExt ∨ errCorrupt = errEnc ∨ errCorrupt = errCorrupt) :=
  ⟨C8_wrap_preserves.1 errCorrupt (by decide),
   C8_wrap_preserves.2 "a.xlsx" [] none errCorrupt rfl⟩

/-! ### ISO timestamp round trip -/

theorem dig10_isDig (k : Nat) (h : k < 10) : isDig (dig10 k) = true := by
  interval_cases k <;> decide

theorem dig10_valC (k : Nat) (h : k < 10) : valC (dig10 k) = k := by
  interval_cases k <;> decide

theorem dig_isDig (n : Nat) : isDig (dig n) = true :=
  dig10_isDig (n % 10) (Nat.mod_lt _ (by norm_num))

theorem dig_valC (n : Nat) : valC (dig n) = n % 10 :=
  dig10_valC (n % 10) (Nat.mod_lt _ (by norm_num))

theorem toISO_ne_empty (d : DateTS) : toISO d ≠ "" := by
  intro h
  have := congrArg (fun s => s.data.length) h
  simp [toISO] at this

theorem parseIso_toISO (d : DateTS) (h : validTS d = true) : parseIso (toISO d) = some d := by
  obtain ⟨y, mo, dd, hh, mi, ss, ms⟩ := d
  simp only [validTS, decide_eq_true_eq] at h
  obtain ⟨hy, hm1, hm2, hd1, hd2, hhh, hmi, hs, hms⟩ := h
  unfold toISO parseIso
  simp only [dig_isDig, dig_valC, Bool.and_self, if_true]
  have hyv : (y / 1000) % 10 * 1000 + (y / 100) % 10 * 100 + (y / 10) % 10 * 10 + y % 10 = y := by
    have d1 : y / 10 / 10 = y / 100 := by rw [Nat.div_div_eq_div_mul]
    have d2 : y / 100 / 10 = y / 1000 := by rw [Nat.div_div_eq_div_mul]
    have d3 : y / 1000 / 10 = y / 10000 := by rw [Nat.div_div_eq_div_mul]
    omega
  have hmv : (mo / 10) % 10 * 10 + mo % 10 = mo := by
    have d1 : mo / 10 / 10 = mo / 100 := by rw [Nat.div_div_eq_div_mul]
    omega
  have hdv : (dd / 10) % 10 * 10 + dd % 10 = dd := by
    have hdm : daysInMonth y mo ≤ 31 := by
      unfold daysInMonth
      split
      · omega
      · split
        · omega
        · split <;> omega
    have hdle : dd ≤ 31 := le_trans hd2 hdm
    have d1 : dd / 10 / 10 = dd / 100 := by rw [Nat.div_div_eq_div_mul]
    omega
  have hhv : (hh / 10) % 10 * 10 + hh % 10 = hh := by
    have d1 : hh / 10 / 10 = hh / 100 := by rw [Nat.div_div_eq_div_mul]
    omega
  have hmiv : (mi / 10) % 10 * 10 + mi % 10 = mi := by
    have d1 : mi / 10 / 10 = mi / 100 := by rw [Nat.div_div_eq_div_mul]
    omega
  have hsv : (ss / 10) % 10 * 10 + ss % 10 = ss := by
    have d1 : ss / 10 / 10 = ss / 100 := by rw [Nat.div_div_eq_div_mul]
    omega
  have hmsv : (ms / 100) % 10 * 100 + (ms / 10) % 10 * 10 + ms % 10 = ms := by
    have d1 : ms / 10 / 10 = ms / 100 := by rw [Nat.div_div_eq_div_mul]
    have d2 : ms / 100 / 10 = ms / 1000 := by rw [Nat.div_div_eq_div_mul]
    omega
  rw [hyv, hmv, hdv, hhv, hmiv, hsv, hmsv]
  have hrange : 1 ≤ mo ∧ mo ≤ 12 ∧ 1 ≤ dd ∧ dd ≤ daysInMonth y mo ∧ hh ≤ 23 ∧ mi ≤ 59 ∧ ss ≤ 59 :=
    ⟨hm1, hm2, hd1, hd2, hhh, hmi, hs⟩
  rw [if_pos hrange]

/-! ### Writer characterisation: fresh updates append flat elements -/

theorem localNames_txtCh (s : String) : localNamesF (txtCh s) = [] := by
  unfold txtCh
  by_cases h : s = "" <;> simp [h, localNamesF, localNamesN]

theorem localNames_optElem (w : String × String × Option String) :
    ∀ x ∈ localNamesF (optElem w), x = localOf w.1 := by
  obtain ⟨l, nsp, v⟩ := w
  cases v with
  | none => simp [optElem, localNamesF]
  | some s =>
    simp [optElem, localNamesF, localNamesN, localNames_txtCh, localNamesF_append]

theorem localNames_flatOf (ws : List (String × String × Option String)) :
    ∀ x ∈ localNamesF (flatOf ws), x ∈ ws.map (fun w => localOf w.1) := by
  induction ws with
  | nil => simp [flatOf, localNamesF]
  | cons w rest ih =>
    intro x hx
    rw [flatOf, localNamesF_append] at hx
    rcases List.mem_append.mp hx with hx | hx
    · exact List.mem_cons.mpr (Or.inl (localNames_optElem w x hx))
    · exact List.mem_cons.mpr (Or.inr (ih x hx))

theorem setDateFields_parts (l iso : String) (tag2 : String) (ns2 : Option String)
    (attrs2 : List (String × String)) (ch2 : List XNode) :
    ∃ attrs3, setDateFields l iso (.elem tag2 ns2 attrs2 ch2) = .elem tag2 ns2 attrs3 (txtCh iso) := by
  unfold setDateFields setTextContent setAttrX
  by_cases h : l = "lastPrinted" <;> simp [h, txtCh]

theorem localNames_dateElem (l : String) (v : Option DateTS) :
    ∀ x ∈ localNamesF (dateElem l v), x = localOf (dateQTag l) := by
  cases v with
  | none => simp [dateElem, localNamesF]
  | some dt =>
    obtain ⟨attrs3, hsd⟩ := setDateFields_parts l (toISO dt) (dateQTag l) (some (dateNSOf l)) [] []
    simp [dateElem, hsd, localNamesF, localNamesN, localNames_txtCh, localNamesF_append]

theorem updateTagS_fresh (rt : String) (rns : Option String) (rattrs : List (String × String))
    (ch : List XNode) (l : String) (v : Option String) (nsp : String)
    (hrt : localOf rt ≠ l) (hch : l ∉ localNamesF ch) :
    updateTagS [XNode.elem rt rns rattrs ch] l v nsp
      = [XNode.elem rt rns rattrs (ch ++ optElem (l, nsp, v))] := by
  cases v with
  | none => simp [updateTagS, optElem]
  | some s =>
    simp only [updateTagS]
    have hm : mapFirstLocalF l (setTextContent s) [XNode.elem rt rns rattrs ch] = none := by
      rw [mapFirstLocalF_none_iff]
      simp [localNamesF, localNamesN, hrt, Ne.symm hrt, hch]
    rw [hm]
    simp [appendToRoot, optElem]

theorem applyWrites_fresh (ws : List (String × String × Option String)) :
    ∀ (rt : String) (rns : Option String) (rattrs : List (String × String)) (ch : List XNode),
    (∀ w ∈ ws, localOf w.1 = w.1) →
    (∀ w ∈ ws, w.1 ≠ localOf rt ∧ w.1 ∉ localNamesF ch) →
    (ws.map (fun w => w.1)).Nodup →
    applyWrites [XNode.elem rt rns rattrs ch] ws = [XNode.elem rt rns rattrs (ch ++ flatOf ws)] := by
  induction ws with
  | nil => intro rt rns rattrs ch _ _ _; simp [applyWrites, flatOf]
  | cons w rest ih =>
    intro rt rns rattrs ch hids hfresh hnd
    obtain ⟨l, nsp, v⟩ := w
    have hid0 : localOf l = l := hids _ (List.mem_cons_self _ _)
    have hf0 := hfresh _ (List.mem_cons_self _ _)
    have hstep : updateTagS [XNode.elem rt rns rattrs ch] l v nsp
        = [XNode.elem rt rns rattrs (ch ++ optElem (l, nsp, v))] := by
      apply updateTagS_fresh
      · exact fun h => hf0.1 h.symm
      · exact hf0.2
    have happly : applyWrites [XNode.elem rt rns rattrs ch] ((l, nsp, v) :: rest)
        = applyWrites (updateTagS [XNode.elem rt rns rattrs ch] l v nsp) rest := rfl
    rw [happly, hstep]
    rw [ih rt rns rattrs (ch ++ optElem (l, nsp, v))
      (fun w' hw' => hids w' (List.mem_cons_of_mem _ hw'))
      ?_ (List.nodup_cons.mp hnd).2]
    · simp [flatOf, List.append_assoc]
    · intro w' hw'
      refine ⟨(hfresh w' (List.mem_cons_of_mem _ hw')).1, ?_⟩
      rw [localNamesF_append]
      intro hmem
      rcases List.mem_append.mp hmem with hmem | hmem
      · exact (hfresh w' (List.mem_cons_of_mem _ hw')).2 hmem
      · have := localNames_optElem (l, nsp, v) _ hmem
        simp only [hid0] at this
        have hne : w'.1 ≠ l := by
          intro he
          exact (List.nodup_cons.mp hnd).1 (he ▸ List.mem_map.mpr ⟨w', hw', rfl⟩)
        exact hne this

theorem updateDate_fresh (rt : String) (rns : Option String) (rattrs : List (String × String))
    (ch : List XNode) (l : String) (v : Option DateTS)
    (hrt : localOf rt ≠ l) (hch : l ∉ localNamesF ch) :
    updateDate [XNode.elem rt rns rattrs ch] l v
      = [XNode.elem rt rns rattrs (ch ++ dateElem l v)] := by
  cases v with
  | none => simp [updateDate, dateElem]
  | some dt =>
    simp only [updateDate]
    have hm : mapFirstLocalF l (setDateFields l (toISO dt)) [XNode.elem rt rns rattrs ch] = none := by
      rw [mapFirstLocalF_none_iff]
      simp [localNamesF, localNamesN, hrt, Ne.symm hrt, hch]
    rw [hm]
    simp [appendToRoot, dateElem]

/-! ### Reader characterisation -/

theorem str_append_empty (s : String) : s ++ "" = s := by
  apply strExt
  rw [String.data_append]
  simp

theorem textF_txtCh (s : String) : textF (txtCh s) = s := by
  unfold txtCh
  by_cases h : s = ""
  · simp [h, textF]
  · simp [h, textF, textN, str_append_empty]

theorem gbln_doc (rt : String) (rns : Option String) (rattrs : List (String × String))
    (ch : List XNode) (l : String) (hrt : localOf rt ≠ l) :
    gbln [XNode.elem rt rns rattrs ch] l =
      match findLocalF l ch with
      | none => none
      | some e => if textN e = "" then none else some (textN e) := by
  unfold gbln
  have h1 : findLocalF l [XNode.elem rt rns rattrs ch] = findLocalF l ch := by
    simp only [findLocalF, findLocalN, hrt, if_false]
    cases findLocalF l ch <;> rfl
  rw [h1]

theorem findLocalF_concat_miss (l : String) (A B : List XNode) (hA : l ∉ localNamesF A) :
    findLocalF l (A ++ B) = findLocalF l B := by
  rw [findLocalF_append, (findLocalF_none_iff l A).mpr hA]

theorem findLocalF_flatOf (l : String) (hll : localOf l = l) :
    ∀ ws : List (String × String × Option String),
    (∀ w ∈ ws, localOf w.1 = w.1) → (ws.map (fun w => w.1)).Nodup →
    findLocalF l (flatOf ws) =
      match ws.find? (fun w => w.1 = l) with
      | none => none
      | some w => w.2.2.map (fun s => XNode.elem w.1 (some w.2.1) [] (txtCh s)) := by
  intro ws
  induction ws with
  | nil => intro _ _; simp [flatOf, findLocalF, List.find?]
  | cons w rest ih =>
    intro hids hnd
    obtain ⟨l0, nsp0, v0⟩ := w
    have hid0 : localOf l0 = l0 := hids _ (List.mem_cons_self _ _)
    by_cases heq : l0 = l
    · subst heq
      rw [List.find?_cons_of_pos _ (by simp)]
      cases v0 with
      | none =>
        simp only [flatOf, optElem, List.nil_append]
        have hnone : findLocalF l0 (flatOf rest) = none := by
          rw [findLocalF_none_iff]
          intro hmem
          have := localNames_flatOf rest l0 hmem
          rcases List.mem_map.mp this with ⟨w', hw', hww⟩
          have hwid : localOf w'.1 = w'.1 := hids _ (List.mem_cons_of_mem _ hw')
          rw [hwid] at hww
          exact (List.nodup_cons.mp hnd).1 (hww ▸ List.mem_map.mpr ⟨w', hw', rfl⟩)
        rw [hnone]
        rfl
      | some s =>
        simp only [flatOf, optElem]
        simp [findLocalF, findLocalN, hid0, localNames_txtCh,
          (findLocalF_none_iff l0 (txtCh s)).mpr (by rw [localNames_txtCh]; simp)]
    · rw [List.find?_cons_of_neg _ (by simp [heq])]
      have hmiss : l ∉ localNamesF (optElem (l0, nsp0, v0)) := by
        intro hmem
        have := localNames_optElem (l0, nsp0, v0) l hmem
        simp only [hid0] at this
        exact heq this.symm
      rw [flatOf, findLocalF_concat_miss l _ _ hmiss]
      exact ih (fun w' hw' => hids _ (List.mem_cons_of_mem _ hw')) (List.nodup_cons.mp hnd).2

theorem findLocalF_dateElem_hit (l : String) (dt : DateTS) (hq : localOf (dateQTag l) = l) :
    ∃ attrs3, findLocalF l (dateElem l (some dt))
      = some (XNode.elem (dateQTag l) (some (dateNSOf l)) attrs3 (txtCh (toISO dt))) := by
  obtain ⟨attrs3, hsd⟩ := setDateFields_parts l (toISO dt) (dateQTag l) (some (dateNSOf l)) [] []
  refine ⟨attrs3, ?_⟩
  simp [dateElem, hsd, findLocalF, findLocalN, hq]

/-! ### What `updateProperties` builds on a package lacking both property parts -/

theorem coreWrites_ids (ps : PropertySet) : ∀ w ∈ coreTextWrites ps, localOf w.1 = w.1 := by
  intro w hw
  simp only [coreTextWrites, List.mem_cons, List.not_mem_nil, or_false] at hw
  rcases hw with rfl | rfl | rfl | rfl | rfl | rfl | rfl | rfl | rfl | rfl <;> rfl

theorem coreWrites_nodup (ps : PropertySet) : ((coreTextWrites ps).map (fun w => w.1)).Nodup := by
  simp only [coreTextWrites, List.map_cons, List.map_nil]
  decide

theorem appWrites_ids (ps : PropertySet) : ∀ w ∈ appWrites ps, localOf w.1 = w.1 := by
  intro w hw
  simp only [appWrites, List.mem_cons, List.not_mem_nil, or_false] at hw
  rcases hw with rfl | rfl | rfl | rfl | rfl | rfl <;> rfl

theorem appWrites_nodup (ps : PropertySet) : ((appWrites ps).map (fun w => w.1)).Nodup := by
  simp only [appWrites, List.map_cons, List.map_nil]
  decide

theorem coreFlat_names (ps : PropertySet) (x : String) :
    x ∈ localNamesF (flatOf (coreTextWrites ps)) →
    x ∈ ["title", "subject", "creator", "keywords", "description", "lastModifiedBy",
         "category", "contentStatus", "revision", "language"] := by
  intro hmem
  have h2 := localNames_flatOf _ _ hmem
  revert h2
  simp only [coreTextWrites, List.map_cons, List.map_nil]
  intro h2
  simpa using h2

theorem appFlat_names (ps : PropertySet) (x : String) :
    x ∈ localNamesF (flatOf (appWrites ps)) →
    x ∈ ["Company", "Manager", "Application", "AppVersion", "ScaleCrop", "LinksUpToDate"] := by
  intro hmem
  have h2 := localNames_flatOf _ _ hmem
  revert h2
  simp only [appWrites, List.map_cons, List.map_nil]
  intro h2
  simpa using h2

theorem updateProps_eq (z : Package) (ps : PropertySet)
    (hcore : zfind z corePath = none) (happ : zfind z appPath = none) :
    updateProperties z ps = zset (zset z corePath (coreFinal ps)) appPath (appFinal ps) := by
  have hfresh : ∀ w ∈ coreTextWrites ps,
      w.1 ≠ localOf "cp:coreProperties" ∧ w.1 ∉ localNamesF ([] : List XNode) := by
    intro w hw
    simp only [coreTextWrites, List.mem_cons, List.not_mem_nil, or_false] at hw
    rcases hw with rfl | rfl | rfl | rfl | rfl | rfl | rfl | rfl | rfl | rfl <;>
      exact ⟨fun h => by
          rw [show localOf "cp:coreProperties" = "coreProperties" from rfl] at h
          simp at h,
        by simp [localNamesF]⟩
  have hcd1 : applyWrites coreTemplate (coreTextWrites ps)
      = [XNode.elem "cp:coreProperties" (some cpNS)
          [("xmlns:cp", cpNS), ("xmlns:dc", dcNS), ("xmlns:dcterms", dctermsNS),
           ("xmlns:dcmitype", "http://purl.org/dc/dcmitype/"), ("xmlns:xsi", xsiNS)]
          (flatOf (coreTextWrites ps))] := by
    have h := applyWrites_fresh (coreTextWrites ps) "cp:coreProperties" (some cpNS)
      [("xmlns:cp", cpNS), ("xmlns:dc", dcNS), ("xmlns:dcterms", dctermsNS),
       ("xmlns:dcmitype", "http://purl.org/dc/dcmitype/"), ("xmlns:xsi", xsiNS)] []
      (coreWrites_ids ps) hfresh (coreWrites_nodup ps)
    simpa [coreTemplate] using h
  have hcr : "created" ∉ localNamesF (flatOf (coreTextWrites ps)) := by
    intro hmem
    exact absurd (coreFlat_names ps _ hmem) (by decide)
  have hcd2 := updateDate_fresh "cp:coreProperties" (some cpNS)
    [("xmlns:cp", cpNS), ("xmlns:dc", dcNS), ("xmlns:dcterms", dctermsNS),
     ("xmlns:dcmitype", "http://purl.org/dc/dcmitype/"), ("xmlns:xsi", xsiNS)]
    (flatOf (coreTextWrites ps)) "created" ps.created (by decide) hcr
  have hmo : "modified" ∉ localNamesF (flatOf (coreTextWrites ps) ++ dateElem "created" ps.created) := by
    intro hmem
    rw [localNamesF_append] at hmem
    rcases List.mem_append.mp hmem with hmem | hmem
    · exact absurd (coreFlat_names ps _ hmem) (by decide)
    · exact absurd (localNames_dateElem _ _ _ hmem) (by decide)
  have hcd3 := updateDate_fresh "cp:coreProperties" (some cpNS)
    [("xmlns:cp", cpNS), ("xmlns:dc", dcNS), ("xmlns:dcterms", dctermsNS),
     ("xmlns:dcmitype", "http://purl.org/dc/dcmitype/"), ("xmlns:xsi", xsiNS)]
    (flatOf (coreTextWrites ps) ++ dateElem "created" ps.created) "modified" ps.modified
    (by decide) hmo
  have hlp : "lastPrinted" ∉ localNamesF
      ((flatOf (coreTextWrites ps) ++ dateElem "created" ps.created) ++ dateElem "modified" ps.modified) := by
    intro hmem
    rw [localNamesF_append] at hmem
    rcases List.mem_append.mp hmem with hmem | hmem
    · rw [localNamesF_append] at hmem
      rcases List.mem_append.mp hmem with hmem | hmem
      · exact absurd (coreFlat_names ps _ hmem) (by decide)
      · exact absurd (localNames_dateElem _ _ _ hmem) (by decide)
    · exact absurd (localNames_dateElem _ _ _ hmem) (by decide)
  have hcd4 := updateDate_fresh "cp:coreProperties" (some cpNS)
    [("xmlns:cp", cpNS), ("xmlns:dc", dcNS), ("xmlns:dcterms", dctermsNS),
     ("xmlns:dcmitype", "http://purl.org/dc/dcmitype/"), ("xmlns:xsi", xsiNS)]
    ((flatOf (coreTextWrites ps) ++ dateElem "created" ps.created) ++ dateElem "modified" ps.modified)
    "lastPrinted" ps.lastPrinted (by decide) hlp
  have hfresh2 : ∀ w ∈ appWrites ps,
      w.1 ≠ localOf "Properties" ∧ w.1 ∉ localNamesF ([] : List XNode) := by
    intro w hw
    simp only [appWrites, List.mem_cons, List.not_mem_nil, or_false] at hw
    rcases hw with rfl | rfl | rfl | rfl | rfl | rfl <;>
      exact ⟨fun h => by
          rw [show localOf "Properties" = "Properties" from rfl] at h
          simp at h,
        by simp [localNamesF]⟩
  have had : applyWrites appTemplate (appWrites ps)
      = [XNode.elem "Properties" (some extNS) [("xmlns", extNS), ("xmlns:vt", vtNS)]
          (flatOf (appWrites ps))] := by
    have h := applyWrites_fresh (appWrites ps) "Properties" (some extNS)
      [("xmlns", extNS), ("xmlns:vt", vtNS)] [] (appWrites_ids ps) hfresh2 (appWrites_nodup ps)
    simpa [appTemplate] using h
  have hcoreFinal : updateDate (updateDate (updateDate (applyWrites coreTemplate (coreTextWrites ps))
      "created" ps.created) "modified" ps.modified) "lastPrinted" ps.lastPrinted = coreFinal ps := by
    rw [hcd1, hcd2, hcd3, hcd4]
    simp [coreFinal, List.append_assoc]
  simp only [updateProperties, hcore]
  rw [hcoreFinal]
  have hz1 : zfind (zset z corePath (coreFinal ps)) appPath = none := by
    rw [zfind_zset_other _ _ _ _ (by decide)]
    exact happ
  rw [hz1]
  rw [had]
  rfl

/-! ### Reading back the freshly written documents -/

theorem gbln_coreFinal_some (ps : PropertySet) (k nsp s : String)
    (hk : localOf k = k) (hroot : localOf "cp:coreProperties" ≠ k)
    (hfind : (coreTextWrites ps).find? (fun w => w.1 = k) = some (k, nsp, some s)) :
    gbln (coreFinal ps) k = if s = "" then none else some s := by
  simp only [coreFinal, List.append_assoc]
  rw [gbln_doc _ _ _ _ _ hroot]
  rw [findLocalF_append]
  rw [findLocalF_flatOf k hk (coreTextWrites ps) (coreWrites_ids ps) (coreWrites_nodup ps), hfind]
  simp [textN, textF_txtCh]

theorem gbln_appFinal_some (ps : PropertySet) (k nsp s : String)
    (hk : localOf k = k) (hroot : localOf "Properties" ≠ k)
    (hfind : (appWrites ps).find? (fun w => w.1 = k) = some (k, nsp, some s)) :
    gbln (appFinal ps) k = if s = "" then none else some s := by
  simp only [appFinal]
  rw [gbln_doc _ _ _ _ _ hroot]
  rw [findLocalF_flatOf k hk (appWrites ps) (appWrites_ids ps) (appWrites_nodup ps), hfind]
  simp [textN, textF_txtCh]

theorem gbln_coreFinal_created (ps : PropertySet) (dt : DateTS) (h : ps.created = some dt) :
    gbln (coreFinal ps) "created" = some (toISO dt) := by
  simp only [coreFinal, List.append_assoc]
  rw [gbln_doc _ _ _ _ _ (by decide)]
  rw [findLocalF_concat_miss _ _ _ (fun hmem => absurd (coreFlat_names ps _ hmem) (by decide))]
  rw [h]
  obtain ⟨attrs3, hhit⟩ := findLocalF_dateElem_hit "created" dt (by decide)
  rw [findLocalF_append, hhit]
  have hne := toISO_ne_empty dt
  simp [textN, textF_txtCh, hne]

theorem gbln_coreFinal_modified (ps : PropertySet) (dt : DateTS) (h : ps.modified = some dt) :
    gbln (coreFinal ps) "modified" = some (toISO dt) := by
  simp only [coreFinal, List.append_assoc]
  rw [gbln_doc _ _ _ _ _ (by decide)]
  rw [findLocalF_concat_miss _ _ _ (fun hmem => absurd (coreFlat_names ps _ hmem) (by decide))]
  rw [findLocalF_concat_miss _ _ _
    (fun hmem => absurd (localNames_dateElem _ _ _ hmem) (by decide))]
  rw [h]
  obtain ⟨attrs3, hhit⟩ := findLocalF_dateElem_hit "modified" dt (by decide)
  rw [findLocalF_append, hhit]
  have hne := toISO_ne_empty dt
  simp [textN, textF_txtCh, hne]

theorem gbln_coreFinal_lastPrinted (ps : PropertySet) (dt : DateTS) (h : ps.lastPrinted = some dt) :
    gbln (coreFinal ps) "lastPrinted" = some (toISO dt) := by
  simp only [coreFinal, List.append_assoc]
  rw [gbln_doc _ _ _ _ _ (by decide)]
  rw [findLocalF_concat_miss _ _ _ (fun hmem => absurd (coreFlat_names ps _ hmem) (by decide))]
  rw [findLocalF_concat_miss _ _ _
    (fun hmem => absurd (localNames_dateElem _ _ _ hmem) (by decide))]
  rw [findLocalF_concat_miss _ _ _
    (fun hmem => absurd (localNames_dateElem _ _ _ hmem) (by decide))]
  rw [h]
  obtain ⟨attrs3, hhit⟩ := findLocalF_dateElem_hit "lastPrinted" dt (by decide)
  rw [hhit]
  have hne := toISO_ne_empty dt
  simp [textN, textF_txtCh, hne]

theorem updateProps_app_doc (z : Package) (ps : PropertySet) (happ : zfind z appPath = none) :
    zfind (updateProperties z ps) appPath = some (appFinal ps) := by
  have hfresh2 : ∀ w ∈ appWrites ps,
      w.1 ≠ localOf "Properties" ∧ w.1 ∉ localNamesF ([] : List XNode) := by
    intro w hw
    simp only [appWrites, List.mem_cons, List.not_mem_nil, or_false] at hw
    rcases hw with rfl | rfl | rfl | rfl | rfl | rfl <;>
      exact ⟨fun h => by
          rw [show localOf "Properties" = "Properties" from rfl] at h
          simp at h,
        by simp [localNamesF]⟩
  have had : applyWrites appTemplate (appWrites ps)
      = [XNode.elem "Properties" (some extNS) [("xmlns", extNS), ("xmlns:vt", vtNS)]
          (flatOf (appWrites ps))] := by
    have h := applyWrites_fresh (appWrites ps) "Properties" (some extNS)
      [("xmlns", extNS), ("xmlns:vt", vtNS)] [] (appWrites_ids ps) hfresh2 (appWrites_nodup ps)
    simpa [appTemplate] using h
  have hz1 : ∀ cd : XDoc, zfind (zset z corePath cd) appPath = none := fun cd => by
    rw [zfind_zset_other _ _ _ _ (by decide)]
    exact happ
  simp only [updateProperties]
  rw [hz1, had]
  exact zfind_zset_self _ _ _

/-! ### Claim C10 -/

/-- C10: whenever the extended-properties part `docProps/app.xml` is present
in the package, `getProperties` always defines the boolean keys: `scale` and
`linksDirty` are `some _`, an absent `ScaleCrop` element yields
`scale = some false` and an absent `LinksUpToDate` element yields
`linksDirty = some false` — never undefined — whereas the text keys
`company`, `manager`, `programName`, `version` remain undefined when their
elements are absent. -/
theorem C10_bool_keys (z : Package) (doc : XDoc) (hf : zfind z appPath = some doc) :
    (∃ b, (getProperties (some z)).scale = some b) ∧
    (∃ b, (getProperties (some z)).linksDirty = some b) ∧
    ("ScaleCrop" ∉ localNamesF doc → (getProperties (some z)).scale = some false) ∧
    ("LinksUpToDate" ∉ localNamesF doc → (getProperties (some z)).linksDirty = some false) ∧
    ("Company" ∉ localNamesF doc → (getProperties (some z)).company = none) ∧
    ("Manager" ∉ localNamesF doc → (getProperties (some z)).manager = none) ∧
    ("Application" ∉ localNamesF doc → (getProperties (some z)).programName = none) ∧
    ("AppVersion" ∉ localNamesF doc → (getProperties (some z)).version = none) := by
  have hgb : ∀ l, l ∉ localNamesF doc → gbln doc l = none := by
    intro l hl
    unfold gbln
    rw [(findLocalF_none_iff l doc).mpr hl]
  cases hc : zfind z corePath <;>
    exact ⟨⟨decide (gbln doc "ScaleCrop" = some "true"), by simp [getProperties, hf, hc]⟩,
      ⟨decide (gbln doc "LinksUpToDate" = some "false"), by simp [getProperties, hf, hc]⟩,
      fun h => by simp [getProperties, hf, hc, hgb _ h],
      fun h => by simp [getProperties, hf, hc, hgb _ h],
      fun h => by simp [getProperties, hf, hc, hgb _ h],
      fun h => by simp [getProperties, hf, hc, hgb _ h],
      fun h => by simp [getProperties, hf, hc, hgb _ h],
      fun h => by simp [getProperties, hf, hc, hgb _ h]⟩

theorem C10_bool_keys_witness :
    (getProperties (some [(appPath, [XNode.elem "Properties" none [] []])])).scale = some false ∧
    (getProperties (some [(appPath, [XNode.elem "Properties" none [] []])])).linksDirty = some false :=
  ⟨(C10_bool_keys [(appPath, [XNode.elem "Properties" none [] []])]
      [XNode.elem "Properties" none [] []] rfl).2.2.1 (by decide),
   (C10_bool_keys [(appPath, [XNode.elem "Properties" none [] []])]
      [XNode.elem "Properties" none [] []] rfl).2.2.2.1 (by decide)⟩

/-! ### Claim C9 -/

/-- C9 counterexample: a package whose core-properties part is absent but
whose extended-properties part defines `Company` does NOT read back as an
empty `PropertySet` — `company` is defined — so "returns an empty
PropertySet when either property part is absent" fails as stated. -/
theorem C9_cex :
    zfind ([(appPath,
        [XNode.elem "Properties" none [] [XNode.elem "Company" none [] [XNode.text "X"]]])] : Package)
      corePath = none ∧
    (getProperties (some [(appPath,
        [XNode.elem "Properties" none [] [XNode.elem "Company" none [] [XNode.text "X"]]])])).company
      = some "X" ∧
    emptyProps.company = none :=
  ⟨rfl, rfl, rfl⟩

/-- C9 amended: `getProperties` is total (never fails): an unreadable blob
yields the empty `PropertySet`, and an absent property part leaves exactly
that part's keys undefined while the other part is still read; in
particular, for a package missing `docProps/app.xml`, `company`, `manager`,
`programName`, `version`, `scale` and `linksDirty` are all undefined on
read, and `updateProperties` on such a package always (re)creates the part
from the minimal `Properties` template declaring the extended-properties
and `vt` namespaces, with one element appended per defined key. -/
theorem C9_props_best_effort :
    getProperties none = emptyProps ∧
    (∀ z, zfind z appPath = none →
      (getProperties (some z)).company = none ∧ (getProperties (some z)).manager = none ∧
      (getProperties (some z)).programName = none ∧ (getProperties (some z)).version = none ∧
      (getProperties (some z)).scale = none ∧ (getProperties (some z)).linksDirty = none) ∧
    (∀ z ps, zfind z appPath = none →
      zfind (updateProperties z ps) appPath = some (appFinal ps)) := by
  refine ⟨rfl, ?_, fun z ps happ => updateProps_app_doc z ps happ⟩
  intro z happ
  cases hc : zfind z corePath <;> simp [getProperties, happ, hc, emptyProps]

theorem C9_props_best_effort_witness :
    (getProperties (some ([] : Package))).company = none ∧
    zfind (updateProperties ([] : Package) { company := some "Acme" }) appPath
      = some (appFinal { company := some "Acme" }) :=
  ⟨(C9_props_best_effort.2.1 [] rfl).1,
   C9_props_best_effort.2.2 [] _ rfl⟩

/-! ### Claim C3 -/

/-- C3 counterexample: writing `linksDirty = true` and reading the result
back returns `linksDirty = false` — the write path stores the boolean
directly in `LinksUpToDate` while the read path treats the literal
`"false"` as true — so the round trip does not return the same value for
every defined key. -/
theorem C3_cex :
    ({ linksDirty := some true : PropertySet }).linksDirty = some true ∧
    (getProperties (some (updateProperties []
        ({ linksDirty := some true } : PropertySet)))).linksDirty = some false :=
  ⟨rfl, rfl⟩

/-- C3 amended: for a package in which both property parts are absent (so
the writer creates them from the templates), writing a `PropertySet` and
reading the result back returns the same value for every key defined in
the write, with two exceptions forced by the code: a text key written as
the empty string reads back as undefined, and `linksDirty` reads back as
the negation of the written boolean (the `LinksUpToDate` inversion); the
boolean key `scale` and the timestamp keys `created`, `modified`,
`lastPrinted` (for calendar-valid dates) round-trip exactly. -/
theorem C3_roundtrip (z : Package) (ps : PropertySet)
    (hcore : zfind z corePath = none) (happ : zfind z appPath = none) :
    (∀ s, ps.title = some s → s ≠ "" →
      (getProperties (some (updateProperties z ps))).title = some s) ∧
    (∀ s, ps.subject = some s → s ≠ "" →
      (getProperties (some (updateProperties z ps))).subject = some s) ∧
    (∀ s, ps.creator = some s → s ≠ "" →
      (getProperties (some (updateProperties z ps))).creator = some s) ∧
    (∀ s, ps.keywords = some s → s ≠ "" →
      (getProperties (some (updateProperties z ps))).keywords = some s) ∧
    (∀ s, ps.description = some s → s ≠ "" →
      (getProperties (some (updateProperties z ps))).description = some s) ∧
    (∀ s, ps.lastModifiedBy = some s → s ≠ "" →
      (getProperties (some (updateProperties z ps))).lastModifiedBy = some s) ∧
    (∀ s, ps.category = some s → s ≠ "" →
      (getProperties (some (updateProperties z ps))).category = some s) ∧
    (∀ s, ps.contentStatus = some s → s ≠ "" →
      (getProperties (some (updateProperties z ps))).contentStatus = some s) ∧
    (∀ s, ps.revision = some s → s ≠ "" →
      (getProperties (some (updateProperties z ps))).revision = some s) ∧
    (∀ s, ps.language = some s → s ≠ "" →
      (getProperties (some (updateProperties z ps))).language = some s) ∧
    (∀ s, ps.company = some s → s ≠ "" →
      (getProperties (some (updateProperties z ps))).company = some s) ∧
    (∀ s, ps.manager = some s → s ≠ "" →
      (getProperties (some (updateProperties z ps))).manager = some s) ∧
    (∀ s, ps.programName = some s → s ≠ "" →
      (getProperties (some (updateProperties z ps))).programName = some s) ∧
    (∀ s, ps.version = some s → s ≠ "" →
      (getProperties (some (updateProperties z ps))).version = some s) ∧
    (∀ b, ps.scale = some b →
      (getProperties (some (updateProperties z ps))).scale = some b) ∧
    (∀ b, ps.linksDirty = some b →
      (getProperties (some (updateProperties z ps))).linksDirty = some (!b)) ∧
    (∀ dt, ps.created = some dt → validTS dt = true →
      (getProperties (some (updateProperties z ps))).created = some dt) ∧
    (∀ dt, ps.modified = some dt → validTS dt = true →
      (getProperties (some (updateProperties z ps))).modified = some dt) ∧
    (∀ dt, ps.lastPrinted = some dt → validTS dt = true →
      (getProperties (some (updateProperties z ps))).lastPrinted = some dt) := by
  have hzc : zfind (updateProperties z ps) corePath = some (coreFinal ps) := by
    rw [updateProps_eq z ps hcore happ]
    rw [zfind_zset_other _ _ _ _ (by decide)]
    exact zfind_zset_self _ _ _
  have hza : zfind (updateProperties z ps) appPath = some (appFinal ps) :=
    updateProps_app_doc z ps happ
  refine ⟨?_, ?_, ?_, ?_, ?_, ?_, ?_, ?_, ?_, ?_, ?_, ?_, ?_, ?_, ?_, ?_, ?_, ?_, ?_⟩
  · intro s hs hne
    have ht : (getProperties (some (updateProperties z ps))).title
        = gbln (coreFinal ps) "title" := by simp [getProperties, hzc, hza]
    rw [ht, gbln_coreFinal_some ps "title" dcNS s rfl (by decide)
      (by rw [show (coreTextWrites ps).find? (fun w => w.1 = "title")
            = some ("title", dcNS, ps.title) from rfl, hs]), if_neg hne]
  · intro s hs hne
    have ht : (getProperties (some (updateProperties z ps))).subject
        = gbln (coreFinal ps) "subject" := by simp [getProperties, hzc, hza]
    rw [ht, gbln_coreFinal_some ps "subject" dcNS s rfl (by decide)
      (by rw [show (coreTextWrites ps).find? (fun w => w.1 = "subject")
            = some ("subject", dcNS, ps.subject) from rfl, hs]), if_neg hne]
  · intro s hs hne
    have ht : (getProperties (some (updateProperties z ps))).creator
        = gbln (coreFinal ps) "creator" := by simp [getProperties, hzc, hza]
    rw [ht, gbln_coreFinal_some ps "creator" dcNS s rfl (by decide)
      (by rw [show (coreTextWrites ps).find? (fun w => w.1 = "creator")
            = some ("creator", dcNS, ps.creator) from rfl, hs]), if_neg hne]
  · intro s hs hne
    have ht : (getProperties (some (updateProperties z ps))).keywords
        = gbln (coreFinal ps) "keywords" := by simp [getProperties, hzc, hza]
    rw [ht, gbln_coreFinal_some ps "keywords" cpNS s rfl (by decide)
      (by rw [show (coreTextWrites ps).find? (fun w => w.1 = "keywords")
            = some ("keywords", cpNS, ps.keywords) from rfl, hs]), if_neg hne]
  · intro s hs hne
    have ht : (getProperties (some (updateProperties z ps))).description
        = gbln (coreFinal ps) "description" := by simp [getProperties, hzc, hza]
    rw [ht, gbln_coreFinal_some ps "description" dcNS s rfl (by decide)
      (by rw [show (coreTextWrites ps).find? (fun w => w.1 = "description")
            = some ("description", dcNS, ps.description) from rfl, hs]), if_neg hne]
  · intro s hs hne
    have ht : (getProperties (some (updateProperties z ps))).lastModifiedBy
        = gbln (coreFinal ps) "lastModifiedBy" := by simp [getProperties, hzc, hza]
    rw [ht, gbln_coreFinal_some ps "lastModifiedBy" cpNS s rfl (by decide)
      (by rw [show (coreTextWrites ps).find? (fun w => w.1 = "lastModifiedBy")
            = some ("lastModifiedBy", cpNS, ps.lastModifiedBy) from rfl, hs]), if_neg hne]
  · intro s hs hne
    have ht : (getProperties (some (updateProperties z ps))).category
        = gbln (coreFinal ps) "category" := by simp [getProperties, hzc, hza]
    rw [ht, gbln_coreFinal_some ps "category" cpNS s rfl (by decide)
      (by rw [show (coreTextWrites ps).find? (fun w => w.1 = "category")
            = some ("category", cpNS, ps.category) from rfl, hs]), if_neg hne]
  · intro s hs hne
    have ht : (getProperties (some (updateProperties z ps))).contentStatus
        = gbln (coreFinal ps) "contentStatus" := by simp [getProperties, hzc, hza]
    rw [ht, gbln_coreFinal_some ps "contentStatus" cpNS s rfl (by decide)
      (by rw [show (coreTextWrites ps).find? (fun w => w.1 = "contentStatus")
            = some ("contentStatus", cpNS, ps.contentStatus) from rfl, hs]), if_neg hne]
  · intro s hs hne
    have ht : (getProperties (some (updateProperties z ps))).revision
        = gbln (coreFinal ps) "revision" := by simp [getProperties, hzc, hza]
    rw [ht, gbln_coreFinal_some ps "revision" cpNS s rfl (by decide)
      (by rw [show (coreTextWrites ps).find? (fun w => w.1 = "revision")
            = some ("revision", cpNS, ps.revision) from rfl, hs]), if_neg hne]
  · intro s hs hne
    have ht : (getProperties (some (updateProperties z ps))).language
        = gbln (coreFinal ps) "language" := by simp [getProperties, hzc, hza]
    rw [ht, gbln_coreFinal_some ps "language" dcNS s rfl (by decide)
      (by rw [show (coreTextWrites ps).find? (fun w => w.1 = "language")
            = some ("language", dcNS, ps.language) from rfl, hs]), if_neg hne]
  · intro s hs hne
    have ht : (getProperties (some (updateProperties z ps))).company
        = gbln (appFinal ps) "Company" := by simp [getProperties, hzc, hza]
    rw [ht, gbln_appFinal_some ps "Company" extNS s rfl (by decide)
      (by rw [show (appWrites ps).find? (fun w => w.1 = "Company")
            = some ("Company", extNS, ps.company) from rfl, hs]), if_neg hne]
  · intro s hs hne
    have ht : (getProperties (some (updateProperties z ps))).manager
        = gbln (appFinal ps) "Manager" := by simp [getProperties, hzc, hza]
    rw [ht, gbln_appFinal_some ps "Manager" extNS s rfl (by decide)
      (by rw [show (appWrites ps).find? (fun w => w.1 = "Manager")
            = some ("Manager", extNS, ps.manager) from rfl, hs]), if_neg hne]
  · intro s hs hne
    have ht : (getProperties (some (updateProperties z ps))).programName
        = gbln (appFinal ps) "Application" := by simp [getProperties, hzc, hza]
    rw [ht, gbln_appFinal_some ps "Application" extNS s rfl (by decide)
      (by rw [show (appWrites ps).find? (fun w => w.1 = "Application")
            = some ("Application", extNS, ps.programName) from rfl, hs]), if_neg hne]
  · intro s hs hne
    have ht : (getProperties (some (updateProperties z ps))).version
        = gbln (appFinal ps) "AppVersion" := by simp [getProperties, hzc, hza]
    rw [ht, gbln_appFinal_some ps "AppVersion" extNS s rfl (by decide)
      (by rw [show (appWrites ps).find? (fun w => w.1 = "AppVersion")
            = some ("AppVersion", extNS, ps.version) from rfl, hs]), if_neg hne]
  · intro b hb
    have ht : (getProperties (some (updateProperties z ps))).scale
        = some (decide (gbln (appFinal ps) "ScaleCrop" = some "true")) := by
      simp [getProperties, hzc, hza]
    have hg : gbln (appFinal ps) "ScaleCrop" = some (boolStr b) := by
      rw [gbln_appFinal_some ps "ScaleCrop" extNS (boolStr b) rfl (by decide)
        (by rw [show (appWrites ps).find? (fun w => w.1 = "ScaleCrop")
              = some ("ScaleCrop", extNS, ps.scale.map boolStr) from rfl, hb]; rfl),
        if_neg (by cases b <;> simp [boolStr])]
    rw [ht, hg]
    cases b <;> rfl
  · intro b hb
    have ht : (getProperties (some (updateProperties z ps))).linksDirty
        = some (decide (gbln (appFinal ps) "LinksUpToDate" = some "false")) := by
      simp [getProperties, hzc, hza]
    have hg : gbln (appFinal ps) "LinksUpToDate" = some (boolStr b) := by
      rw [gbln_appFinal_some ps "LinksUpToDate" extNS (boolStr b) rfl (by decide)
        (by rw [show (appWrites ps).find? (fun w => w.1 = "LinksUpToDate")
              = some ("LinksUpToDate", extNS, ps.linksDirty.map boolStr) from rfl, hb]; rfl),
        if_neg (by cases b <;> simp [boolStr])]
    rw [ht, hg]
    cases b <;> rfl
  · intro dt hdt hval
    have ht : (getProperties (some (updateProperties z ps))).created
        = optDate (gbln (coreFinal ps) "created") := by simp [getProperties, hzc, hza]
    rw [ht, gbln_coreFinal_created ps dt hdt]
    simp [optDate, parseIso_toISO dt hval]
  · intro dt hdt hval
    have ht : (getProperties (some (updateProperties z ps))).modified
        = optDate (gbln (coreFinal ps) "modified") := by simp [getProperties, hzc, hza]
    rw [ht, gbln_coreFinal_modified ps dt hdt]
    simp [optDate, parseIso_toISO dt hval]
  · intro dt hdt hval
    have ht : (getProperties (some (updateProperties z ps))).lastPrinted
        = optDate (gbln (coreFinal ps) "lastPrinted") := by simp [getProperties, hzc, hza]
    rw [ht, gbln_coreFinal_lastPrinted ps dt hdt]
    simp [optDate, parseIso_toISO dt hval]

theorem C3_roundtrip_witness :
    (getProperties (some (updateProperties []
        ({ title := some "T", scale := some true, linksDirty := some true,
           created := some ⟨2023, 10, 26, 12, 0, 0, 0⟩ } : PropertySet)))).title = some "T" ∧
    (getProperties (some (updateProperties []
        ({ title := some "T", scale := some true, linksDirty := some true,
           created := some ⟨2023, 10, 26, 12, 0, 0, 0⟩ } : PropertySet)))).scale = some true ∧
    (getProperties (some (updateProperties []
        ({ title := some "T", scale := some true, linksDirty := some true,
           created := some ⟨2023, 10, 26, 12, 0, 0, 0⟩ } : PropertySet)))).linksDirty = some (!true) ∧
    (getProperties (some (updateProperties []
        ({ title := some "T", scale := some true, linksDirty := some true,
           created := some ⟨2023, 10, 26, 12, 0, 0, 0⟩ } : PropertySet)))).created
      = some ⟨2023, 10, 26, 12, 0, 0, 0⟩ :=
  ⟨(C3_roundtrip [] _ rfl rfl).1 "T" rfl (by decide),
   (C3_roundtrip [] _ rfl rfl).2.2.2.2.2.2.2.2.2.2.2.2.2.2.1 true rfl,
   (C3_roundtrip [] _ rfl rfl).2.2.2.2.2.2.2.2.2.2.2.2.2.2.2.1 true rfl,
   (C3_roundtrip [] _ rfl rfl).2.2.2.2.2.2.2.2.2.2.2.2.2.2.2.2.1 ⟨2023, 10, 26, 12, 0, 0, 0⟩ rfl (by decide)⟩
